import Mathlib

/-!
Verification of the recache synchronization engine (src/lib/cache.js).

The JavaScript source is shallowly embedded as pure Lean functions:

* Locations of the element store are modelled in two ways.  The location
  normalizer (`Cache.normalizeLocation`, cache.js lines 587-610) works on raw
  strings and is embedded on `String`.  The engine itself only ever builds
  store keys by appending `location + '/' + childName` to the root sentinel
  `"<root>"` with child names produced by `readdir` (which never contain a
  separator), so canonical store keys are in bijection with lists of path
  segments; the engine model therefore uses `Loc := List String`, with the
  root sentinel `"<root>"` represented as `[]` and `location + '/' + child`
  represented as `loc ++ [child]`.
* The `Map` objects (`_container`, `_watchers`) are modelled as association
  lists with JavaScript `Map` semantics (`mset` replaces in place or appends,
  `mdelete` removes the key).
* Asynchronous functions are modelled as state transformers over `CacheState`
  together with a static file-system oracle `Env`; every emitted event is
  appended to the `events` log, every `readFile` call to the `reads` log.
  The recursion of `updateLocation` through directory iteration and of
  `unlinkElement` through directory contents is made total with an explicit
  fuel parameter (in the source it terminates because store keys strictly
  grow along the recursion).
* The update-serializer behaviour of `listenChange`/`whenReleased`
  (cache.js lines 552-580 and 788-804) is modelled separately as a
  deterministic event-loop machine `SerSystem` that makes the synchronous
  segments, the `release` event emission and the microtask queue of the
  Node.js runtime explicit.
-/

set_option maxRecDepth 4096

namespace Recache

/-! ## Location normalization (cache.js lines 587-610) -/

/-- `rootSymbol` constant (cache.js line 66). -/
def rootSymbol : String := "<root>"

/-- `solidus` constant (cache.js line 67). -/
def solidus : String := "/"

/-- `String.prototype.startsWith`, expressed on the underlying character
lists. -/
def strStartsWith (s p : String) : Bool := p.data.isPrefixOf s.data

/-- `Cache.normalizeLocation` (cache.js lines 587-610).  The `typeof`
check on line 590 is represented by the `String` type of the argument. -/
def normalizeLocation (location : String) : String :=
  if location.length = 0 ∨ location = solidus then rootSymbol
  else if strStartsWith location rootSymbol then location
  else if strStartsWith location solidus then rootSymbol ++ location
  else rootSymbol ++ solidus ++ location

/-! ## Engine data model

Store keys (`Loc`) are lists of path segments; `[]` is the root sentinel
`"<root>"` and `location + solidus + child` (cache.js lines 537, 677, 726)
is `loc ++ [child]`. -/

/-- Canonical store key. -/
abbrev Loc := List String

/-- `fs.constants.S_IFMT` file-type bit mask. -/
def S_IFMT : Nat := 0xF000

/-- `fs.constants.S_IFDIR`. -/
def S_IFDIR : Nat := 0x4000

/-- `fs.constants.S_IFREG`. -/
def S_IFREG : Nat := 0x8000

/-- The part of `BigIntStats` the engine reads: `mode` and `mtimeMs`
(cache.js lines 366, 765). -/
structure Stats where
  mode : Nat
  mtimeMs : Int
deriving DecidableEq

/-- `BigIntStats.isDirectory()`. -/
def Stats.isDir (st : Stats) : Bool := st.mode &&& S_IFMT = S_IFDIR

/-- `BigIntStats.isFile()`. -/
def Stats.isFileKind (st : Stats) : Bool := st.mode &&& S_IFMT = S_IFREG

/-- `CacheElementType` (cache.js lines 59, 61). -/
inductive ElementType where
  | directory
  | file
deriving DecidableEq

/-- The `types` table (cache.js lines 76-79): masked mode bits to element
type, `none` when the kind is not modelled. -/
def typesTable (maskedMode : Nat) : Option ElementType :=
  if maskedMode = S_IFDIR then some ElementType.directory
  else if maskedMode = S_IFREG then some ElementType.file
  else none

/-- Element content: a directory child list (`string[]`), file bytes
(`Buffer`) or JavaScript `null`.  `Array.isArray(content)` is true exactly
for `dirList`. -/
inductive Content where
  | dirList (children : List String)
  | fileBytes (bytes : List Nat)
  | nullc
deriving DecidableEq

/-- `CacheElement` (cache.js lines 373-381); the opaque `data` user
container is never read or written by the engine and is omitted. -/
structure Element where
  content : Content
  location : Loc
  path : String
  stats : Stats
  type : ElementType
deriving DecidableEq

/-- Notifications emitted with `cache.emit(...)`; the error value of the
`error` event is abstracted to the location it concerns. -/
inductive Event where
  | directoryEv (element : Element)
  | fileEv (element : Element)
  | changeEv (element : Element)
  | unlinkEv (element : Element)
  | errorEv (location : Loc)
  | watchEv (path : String)
  | updateEv
  | readyEv
  | releaseEv
  | destroyEv
deriving DecidableEq

/-- `Map.prototype.get`. -/
def mget {α : Type} : List (Loc × α) → Loc → Option α
  | [], _ => none
  | (k', v') :: rest, k => if k' = k then some v' else mget rest k

/-- `Map.prototype.set`: replaces the value in place for an existing key,
appends a new entry otherwise. -/
def mset {α : Type} : List (Loc × α) → Loc → α → List (Loc × α)
  | [], k, v => [(k, v)]
  | (k', v') :: rest, k, v =>
    if k' = k then (k, v) :: rest else (k', v') :: mset rest k v

/-- `Map.prototype.delete`. -/
def mdelete {α : Type} : List (Loc × α) → Loc → List (Loc × α)
  | [], _ => []
  | (k', v') :: rest, k => if k' = k then rest else (k', v') :: mdelete rest k

/-- The mutable state of a `Cache` instance (cache.js lines 162-189).
`container` is `_container`, `watchers` is `_watchers` (native handles are
numbered), `storeOpt` is `_store`, `listener` records whether `_listener`
is non-null, `fileWatched` records whether the `watchFile` registration on
the root path is active, `closedHandles` records every `watcher.close()`
call, `events` logs every emission and `reads` every `readFile` call. -/
structure CacheState where
  path : String
  changed : Bool
  container : List (Loc × Element)
  storeOpt : Bool
  destroyed : Bool
  listener : Bool
  ready : Bool
  updating : Bool
  watchers : List (Loc × Nat)
  watching : Bool
  fileWatched : Bool
  nextHandle : Nat
  closedHandles : List Nat
  events : List Event
  reads : List String
deriving DecidableEq

/-- `Cache.prototype.stop` (cache.js lines 297-316): guarded by
`!this._destroyed && this._watching`; unregisters the root `watchFile`
listener if `_listener` is set, closes every watcher and clears the
watcher map. -/
def stop (s : CacheState) : CacheState :=
  if ¬s.destroyed ∧ s.watching then
    let s1 := { s with watching := false }
    let s2 := if s1.listener then { s1 with fileWatched := false } else s1
    { s2 with closedHandles := s2.closedHandles ++ s2.watchers.map Prod.snd,
              watchers := [] }
  else s

/-- `Cache.prototype.destroy` (cache.js lines 196-226): on a live instance
it marks `_destroyed`, resets `_changed`/`_listener`/`_ready`/`_updating`,
calls `stop()`, clears the container and emits `destroy` (deferred with
`setImmediate` in the source; logged directly here). -/
def destroy (s : CacheState) : CacheState :=
  if ¬s.destroyed then
    let s1 := { s with destroyed := true, changed := false, listener := false,
                       ready := false, updating := false }
    let s2 := stop s1
    { s2 with container := [], events := s2.events ++ [Event.destroyEv] }
  else s

/-- `Cache.addWatcher` (cache.js lines 324-355): only while `_watching`;
creates a native handle for the location, and for the root additionally
registers the `watchFile` poll listener; emits `watch`. -/
def addWatcher (s : CacheState) (path : String) (location : Loc) : CacheState :=
  if s.watching then
    let s1 := { s with watchers := mset s.watchers location s.nextHandle,
                       nextHandle := s.nextHandle + 1 }
    let s2 := if location = [] then { s1 with listener := true, fileWatched := true }
              else s1
    { s2 with events := s2.events ++ [Event.watchEv path] }
  else s

/-- `Cache.unlinkElement` (cache.js lines 652-695) is split into its two
halves.  For a directory with a content list, `unlinkContent` first closes
and discards the watcher of the location and recursively unlinks each
listed child (cache.js lines 659-679); `ul` is the recursive call.  The
source recursion terminates because locations strictly grow; here it is
driven by an explicit fuel. -/
def unlinkContent (ul : CacheState → Loc → CacheState) (location : Loc)
    (s : CacheState) (element : Element) : CacheState :=
  match element.type, element.content with
  | ElementType.directory, Content.dirList children =>
    let sw :=
      match mget s.watchers location with
      | some handle =>
        { s with closedHandles := s.closedHandles ++ [handle],
                 watchers := mdelete s.watchers location }
      | none => s
    children.foldl (fun st child => ul st (location ++ [child])) sw
  | _, _ => s

/-- The deletion, changed flag, unlink emission and root destruction of
`unlinkElement` (cache.js lines 681-694). -/
def unlinkFinish (s : CacheState) (location : Loc) (element : Element) :
    CacheState :=
  let s2 := { s with container := mdelete s.container location, changed := true,
                     events := s.events ++ [Event.unlinkEv element] }
  if location = [] then destroy s2 else s2

/-- The fueled recursion of `unlinkElement` (cache.js lines 652-695). -/
def unlinkElement : Nat → CacheState → Loc → CacheState
  | 0, s, _ => s
  | fuel + 1, s, location =>
    match mget s.container location with
    | none => s
    | some element =>
      unlinkFinish
        (unlinkContent (fun st l => unlinkElement fuel st l) location s element)
        location element

/-- `Cache.emitElementError` (cache.js lines 409-429): after the deferred
check that the cache is not destroyed, emits `error` and unlinks the
element. -/
def emitElementError (fuel : Nat) (s : CacheState) (location : Loc) : CacheState :=
  if ¬s.destroyed then
    unlinkElement fuel { s with events := s.events ++ [Event.errorEv location] } location
  else s

/-! ## File-system oracle and the stat reconciler -/

/-- Static snapshot of the file system and of the construction options:
`stat`, `readdir` and `readFile` yield `none` where the corresponding
promise would reject, and `filter` is the optional inclusion filter. -/
structure Env where
  stat : String → Option Stats
  readdir : String → Option (List String)
  readFile : String → Option (List Nat)
  filter : Option (String → Stats → Bool)

/-- Path resolution of `updateLocation` (cache.js line 746):
`join(cache.path, location.slice(rootSymbolLength))`. -/
def locationPath (base : String) (location : Loc) : String :=
  base ++ location.foldl (fun acc seg => acc ++ "/" ++ seg) ""

/-- `Cache.isPathAccepted` (cache.js lines 514-522). -/
def isPathAccepted (env : Env) (path : String) (stats : Stats) : Bool :=
  match env.filter with
  | some f => f path stats
  | none => true

/-- `Cache.getFileContent` (cache.js lines 482-505): without the `store`
option it resolves to `null` without touching the file; otherwise it reads
the file, re-checks destruction (the `throw` on line 493 lands in the
`catch`, whose `emitElementError` is a no-op on a destroyed cache) and
returns the byte content, while a read failure is reported and unlinked. -/
def getFileContent (env : Env) (ufuel : Nat) (s : CacheState) (path : String)
    (location : Loc) : CacheState × Content :=
  if s.storeOpt then
    let s1 := { s with reads := s.reads ++ [path] }
    match env.readFile path with
    | some bytes =>
      if s1.destroyed then (emitElementError ufuel s1 location, Content.nullc)
      else (s1, Content.fileBytes bytes)
    | none => (emitElementError ufuel s1 location, Content.nullc)
  else (s, Content.nullc)

/-- `Cache.iterateDirectory` (cache.js lines 532-545): reconcile every child
of the listed content in order; the recursive `updateLocation` call is the
`upd` parameter. -/
def iterateDirectory (upd : CacheState → Loc → CacheState) (location : Loc)
    (s : CacheState) (content : List String) : CacheState :=
  content.foldl (fun st child => upd st (location ++ [child])) s

/-- `Cache.getDirectoryContent` (cache.js lines 450-473): list the children,
re-check destruction, reconcile every child, and return the child list; a
listing failure is reported and unlinked. -/
def getDirectoryContent (env : Env) (ufuel : Nat)
    (upd : CacheState → Loc → CacheState) (s : CacheState) (path : String)
    (location : Loc) : CacheState × Content :=
  match env.readdir path with
  | some content =>
    if s.destroyed then (emitElementError ufuel s location, Content.nullc)
    else (iterateDirectory upd location s content, Content.dirList content)
  | none => (emitElementError ufuel s location, Content.nullc)

/-- `Cache.getContent` via `Cache.contentBehaviors` (cache.js lines 438-441,
807-811). -/
def getContent (env : Env) (ufuel : Nat) (upd : CacheState → Loc → CacheState)
    (s : CacheState) (type : ElementType) (path : String) (location : Loc) :
    CacheState × Content :=
  match type with
  | ElementType.directory => getDirectoryContent env ufuel upd s path location
  | ElementType.file => getFileContent env ufuel s path location

/-- The per-kind creation event of `createElement` (cache.js line 393). -/
def kindEvent (type : ElementType) (element : Element) : Event :=
  match type with
  | ElementType.directory => Event.directoryEv element
  | ElementType.file => Event.fileEv element

/-- The container update of `createElement` (cache.js line 384). -/
def storeElement (s : CacheState) (location : Loc) (element : Element) :
    CacheState :=
  { s with container := mset s.container location element }

/-- The ready-guarded changed-flag set and per-kind creation emission of
`createElement` (cache.js lines 386-394). -/
def emitCreated (s : CacheState) (type : ElementType) (element : Element) :
    CacheState :=
  if s.ready then
    { s with changed := true, events := s.events ++ [kindEvent type element] }
  else s

/-- `Cache.createElement` (cache.js lines 364-400): resolve the element
type from the mode bits (the `throw` on line 370 for an unknown type
rejects the promise, which `updateLocation`'s catch turns into
`emitElementError`), load the content, store the element, and — only when
the cache is ready — set the changed flag and emit the per-kind creation
event; finally attach a watcher for directories and for the root. -/
def createElement (env : Env) (ufuel : Nat)
    (upd : CacheState → Loc → CacheState) (s : CacheState) (path : String)
    (location : Loc) (stats : Stats) : CacheState :=
  match typesTable (stats.mode &&& S_IFMT) with
  | none => emitElementError ufuel s location
  | some type =>
    let sc := getContent env ufuel upd s type path location
    let element : Element :=
      { content := sc.2, location := location, path := path, stats := stats,
        type := type }
    let s3 := emitCreated (storeElement sc.1 location element) type element
    if type = ElementType.directory ∨ location = [] then addWatcher s3 path location
    else s3

/-- `Object.assign(element, {...})` mutates the stored object in place: the
container entry changes exactly when the key is still present. -/
def msetIfPresent {α : Type} : List (Loc × α) → Loc → α → List (Loc × α)
  | [], _, _ => []
  | (k', v') :: rest, k, v =>
    if k' = k then (k, v) :: rest else (k', v') :: msetIfPresent rest k v

/-- The removed-children diff of `Cache.updateElement` (cache.js lines
718-729): unlink every old directory child absent from the new listing. -/
def updateElementDiff (ufuel : Nat) (s : CacheState) (element : Element)
    (newContent : Content) : CacheState :=
  match element.type, element.content, newContent with
  | ElementType.directory, Content.dirList oldChildren, Content.dirList newChildren =>
    (oldChildren.filter fun child => ¬newChildren.contains child).foldl
      (fun st child => unlinkElement ufuel st (element.location ++ [child])) s
  | _, _, _ => s

/-- `Cache.updateElement` (cache.js lines 704-733): reload the content,
update the element object in place, set the changed flag, unlink the
removed directory children via `updateElementDiff`, and emit `change` with
the updated element. -/
def updateElement (env : Env) (ufuel : Nat)
    (upd : CacheState → Loc → CacheState) (s : CacheState) (element : Element)
    (stats : Stats) : CacheState :=
  let sc := getContent env ufuel upd s element.type element.path element.location
  let element1 := { element with content := sc.2, stats := stats }
  let s2 := { sc.1 with
              container := msetIfPresent sc.1.container element.location element1,
              changed := true }
  let s3 := updateElementDiff ufuel s2 element sc.2
  { s3 with events := s3.events ++ [Event.changeEv element1] }

/-- `Cache.updateLocation` (cache.js lines 741-781), driven by fuel: stat
the resolved path; a stat failure is reported and unlinked; on success,
re-check destruction (the `throw` on line 751 lands in the catch, whose
`emitElementError` is then a no-op); for a modelled kind, update an
existing element when the modification time changed, re-iterate a
directory listing when it did not, or create a new element when the
location is vacant and accepted by the filter; an unmodelled kind falls
through without touching anything. -/
def updateLocation (env : Env) : Nat → CacheState → Loc → CacheState
  | 0, s, _ => s
  | fuel + 1, s, location =>
    let path := locationPath s.path location
    match env.stat path with
    | none => emitElementError fuel s location
    | some stats =>
      if s.destroyed then emitElementError fuel s location
      else if stats.isDir ∨ stats.isFileKind then
        match mget s.container location with
        | some element =>
          if element.stats.mtimeMs ≠ stats.mtimeMs then
            updateElement env fuel (fun st l => updateLocation env fuel st l) s
              element stats
          else
            match element.content with
            | Content.dirList content =>
              iterateDirectory (fun st l => updateLocation env fuel st l) location s
                content
            | _ => s
        | none =>
          if isPathAccepted env path stats then
            createElement env fuel (fun st l => updateLocation env fuel st l) s path
              location stats
          else s
      else s

/-- The public accessors (cache.js lines 233-277).  `get` and `has` apply
`normalizeLocation` to their string argument in the source; the model takes
the canonical key directly. -/
def getElement (s : CacheState) (location : Loc) : Option Element :=
  mget s.container location

/-- `Cache.prototype.has` (cache.js lines 250-255). -/
def hasLoc (s : CacheState) (location : Loc) : Bool :=
  ¬s.destroyed ∧ (mget s.container location).isSome

/-- `Cache.prototype.list` (cache.js lines 262-277). -/
def listLocs (s : CacheState) (flt : Option (Loc → Bool)) : List Loc :=
  if s.destroyed then []
  else
    match flt with
    | some f => (s.container.map Prod.fst).filter f
    | none => s.container.map Prod.fst

/-- `Cache.prepareCache` (cache.js lines 618-645): run one reconciliation
pass for the root; self-destroy when no root element resulted; otherwise
become ready and emit `ready` followed by the internal `release`. -/
def prepareCache (env : Env) (fuel : Nat) (s : CacheState) : CacheState :=
  let s1 := updateLocation env fuel s []
  let s2 := if ¬hasLoc s1 [] then destroy s1 else s1
  if ¬s2.destroyed then
    { s2 with ready := true,
              events := s2.events ++ [Event.readyEv, Event.releaseEv] }
  else s2

/-- The state right after the constructor's field initialisation and the
`start()` call (cache.js lines 162-189, 283-292), as `prepareCache`
begins. -/
def initialState (path : String) (storeOpt : Bool) : CacheState :=
  { path := path, changed := false, container := [], storeOpt := storeOpt,
    destroyed := false, listener := false, ready := false, updating := false,
    watchers := [], watching := true, fileWatched := false, nextHandle := 0,
    closedHandles := [], events := [], reads := [] }

/-- An oracle for a file system with nothing in it. -/
def emptyEnv : Env :=
  { stat := fun _ => none, readdir := fun _ => none, readFile := fun _ => none,
    filter := none }

/-- The per-kind creation notifications (`directory`/`file`) contained in
an event log. -/
def creationEvents (events : List Event) : List Event :=
  events.filter fun ev =>
    match ev with
    | Event.directoryEv _ => true
    | Event.fileEv _ => true
    | _ => false

/-- Whether an event is the unlink notification for the element stored at
key `k` (elements record their own location). -/
def isUnlinkAt (k : Loc) : Event → Bool
  | Event.unlinkEv e => e.location == k
  | _ => false

/-- The store key `loc ++ rest` is a cached descendant listed (transitively)
in stored directory content: every node of the chain from `loc` is a cached
directory element whose content list contains the next segment. -/
def listedFrom (container : List (Loc × Element)) : Loc → List String → Bool
  | _, [] => true
  | loc, seg :: rest =>
    match mget container loc with
    | some e =>
      match e.type, e.content with
      | ElementType.directory, Content.dirList children =>
        children.contains seg && listedFrom container (loc ++ [seg]) rest
      | _, _ => false
    | none => false

/-- Store well-formedness: keys are unique (a JavaScript `Map`) and every
stored element records the key it is stored under (`createElement` sets
`location` to the store key and nothing rewrites it). -/
def StoreWF (s : CacheState) : Prop :=
  (s.container.map Prod.fst).Nodup
  ∧ ∀ k e, mget s.container k = some e → e.location = k

/-- Event-log discipline from state `s` to state `t`: every event of `s` is
kept, no readiness event is added, and if `t` is destroyed then either `s`
already was or a destroy event is on record in `t`. -/
def EvCarry (s t : CacheState) : Prop :=
  (∀ e, e ∈ s.events → e ∈ t.events)
  ∧ (Event.readyEv ∈ t.events → Event.readyEv ∈ s.events)
  ∧ (t.destroyed = true → s.destroyed = true ∨ Event.destroyEv ∈ t.events)

/-- The hypotheses claim C10 places on the recursive child-reconciliation
callback: it preserves readiness, is silent (changed flag, creation
notifications) while the cache is not ready, and never creates the parent
location it is called under. -/
def UpdQuiet (upd : CacheState → Loc → CacheState) (location : Loc) : Prop :=
  ∀ s' l, (upd s' l).ready = s'.ready
    ∧ (s'.ready = false → (upd s' l).changed = s'.changed
        ∧ creationEvents (upd s' l).events = creationEvents s'.events)
    ∧ (mget s'.container location = none → mget (upd s' l).container location = none)

/-- The recursive callback carries the event discipline. -/
def UpdCarry (upd : CacheState → Loc → CacheState) : Prop :=
  ∀ st l, EvCarry st (upd st l)

/-- What one `unlinkElement` call guarantees (claim C4): the container only
loses entries; every removed key lies in the subtree of the unlinked
location; and for a non-root location the destroyed flag is untouched and
the emitted events are exactly one unlink notification per removed key,
each carrying the element snapshot that was stored there. -/
def UnlinkSpec (s s' : CacheState) (location : Loc) : Prop :=
  List.Sublist s'.container s.container
  ∧ (∀ k, mget s.container k ≠ none → mget s'.container k = none → location <+: k)
  ∧ (location ≠ [] →
      s'.destroyed = s.destroyed
      ∧ ∃ δ, s'.events = s.events ++ δ
        ∧ (∀ k, δ.countP (isUnlinkAt k)
            = if (mget s.container k).isSome ∧ mget s'.container k = none then 1
              else 0)
        ∧ (∀ e2, Event.unlinkEv e2 ∈ δ → mget s.container e2.location = some e2)
        ∧ (∀ ev ∈ δ, ∃ e2, ev = Event.unlinkEv e2))

/-- What the child-removal fold of `unlinkContent` guarantees: as
`UnlinkSpec`, with removed keys lying in the subtree of some listed
child. -/
def UnlinkFoldSpec (st0 stN : CacheState) (location : Loc) (cs : List String) :
    Prop :=
  List.Sublist stN.container st0.container
  ∧ (∀ k, mget st0.container k ≠ none → mget stN.container k = none →
      ∃ c, c ∈ cs ∧ (location ++ [c]) <+: k)
  ∧ stN.destroyed = st0.destroyed
  ∧ ∃ δ, stN.events = st0.events ++ δ
      ∧ (∀ k, δ.countP (isUnlinkAt k)
          = if (mget st0.container k).isSome ∧ mget stN.container k = none then 1
            else 0)
      ∧ (∀ e2, Event.unlinkEv e2 ∈ δ → mget st0.container e2.location = some e2)
      ∧ (∀ ev ∈ δ, ∃ e2, ev = Event.unlinkEv e2)

/-- What the child-removal half (`unlinkContent`) of one unlink call
guarantees, relative to the state it started from. -/
def UnlinkPartSpec (s B : CacheState) (location : Loc) : Prop :=
  List.Sublist B.container s.container
  ∧ (∀ k, mget s.container k ≠ none → mget B.container k = none →
      ∃ c, (location ++ [c]) <+: k)
  ∧ B.destroyed = s.destroyed
  ∧ ∃ δ, B.events = s.events ++ δ
      ∧ (∀ k, δ.countP (isUnlinkAt k)
          = if (mget s.container k).isSome ∧ mget B.container k = none then 1
            else 0)
      ∧ (∀ e2, Event.unlinkEv e2 ∈ δ → mget s.container e2.location = some e2)
      ∧ (∀ ev ∈ δ, ∃ e2, ev = Event.unlinkEv e2)

/-- Stats of a unix socket: a kind the engine does not model. -/
def c3Stats : Stats := { mode := 0xC1A4, mtimeMs := 1 }

/-- A cached plain-file element at location `<root>/a`. -/
def c3Element : Element :=
  { content := Content.fileBytes [7], location := ["a"], path := "/tmp/root/a",
    stats := { mode := 0x81A4, mtimeMs := 1 }, type := ElementType.file }

/-- A ready instance with `c3Element` cached. -/
def c3State : CacheState :=
  { (initialState "/tmp/root" false) with
    ready := true
    container := [(["a"], c3Element)] }

/-- File system where the cached file has been replaced by a socket. -/
def c3Env : Env :=
  { stat := fun _ => some c3Stats, readdir := fun _ => none,
    readFile := fun _ => none, filter := none }

/-- A cached file element whose stored modification time is 7. -/
def c5FileElement : Element :=
  { content := Content.fileBytes [1, 2], location := ["f"],
    path := "/tmp/root/f", stats := { mode := 0x81A4, mtimeMs := 7 },
    type := ElementType.file }

/-- A ready instance (content capture on) with `c5FileElement` cached. -/
def c5State : CacheState :=
  { (initialState "/tmp/root" true) with
    ready := true
    container := [(["f"], c5FileElement)] }

/-- Stats reporting the same modification time as the stored element. -/
def c5Stats : Stats := { mode := 0x81A4, mtimeMs := 7 }

/-- File system where the file's bytes changed but its modification time
did not. -/
def c5Env : Env :=
  { stat := fun _ => some c5Stats, readdir := fun _ => none,
    readFile := fun _ => some [9, 9, 9], filter := none }

/-- File system holding one readable file. -/
def c9Env : Env :=
  { stat := fun _ => none, readdir := fun _ => none,
    readFile := fun _ => some [104, 105], filter := none }

/-- Ready instance with content capture enabled. -/
def c9StateOn : CacheState := { (initialState "/tmp/root" true) with ready := true }

/-- Ready instance with content capture disabled. -/
def c9StateOff : CacheState := { (initialState "/tmp/root" false) with ready := true }

/-! ## Update serializer event-loop model (claim C1)

`Cache.listenChange` (cache.js lines 552-580) and `Cache.whenReleased`
(lines 788-804) implement the update serializer on top of the Node.js
event loop.  The model below makes the loop explicit for exactly these two
functions:

* `emit` runs the registered once-listeners synchronously, in registration
  order; a listener added during the emission is not invoked by it.
* A promise's `resolve` makes every `await` on it continue on the
  microtask queue, in FIFO order.  The resolution of `whenReleased` and the
  continuation of `listenChange` take the same fixed number of microtask
  hops for every trigger, so collapsing them into a single queued
  continuation preserves the order in which continuations run.
* The continuation of `listenChange` after `whenReleased` runs
  synchronously up to the first `await` inside `updateLocation` (the
  `lstat` call, a thread-pool operation that never completes within the
  current microtask drain), so a pass that has been admitted stays in
  flight while later microtasks run.

`running`, `admitted` and `finished` are bookkeeping of which triggers
have a pass in flight, were admitted, and completed; they mirror no cache
field. -/

/-- The four flags of the cache the serializer reads and writes. -/
structure SerCache where
  ready : Bool
  updating : Bool
  changed : Bool
  destroyed : Bool
deriving DecidableEq

/-- The event-loop state: cache flags, the once-listeners registered on the
internal `release` event (trigger ids, in registration order), the
microtask queue of pending `listenChange` continuations, and the
bookkeeping lists. -/
structure SerSystem where
  cache : SerCache
  waiters : List Nat
  microtasks : List Nat
  running : List Nat
  admitted : List Nat
  finished : List Nat
deriving DecidableEq

/-- A watcher fires and `listenChange` runs until `await whenReleased`
(lines 552-555).  The executor of `whenReleased` (lines 790-803) runs
synchronously: when `_ready` is set and `_updating` clear the promise
resolves at once and the continuation is scheduled as a microtask;
otherwise a once-listener on `release` is registered. -/
def serTrigger (t : Nat) (s : SerSystem) : SerSystem :=
  if s.cache.ready ∧ ¬s.cache.updating then
    { s with microtasks := s.microtasks ++ [t] }
  else { s with waiters := s.waiters ++ [t] }

/-- The event loop runs the first queued microtask: the continuation of
`listenChange` after `whenReleased` resolved (lines 557-567).  It re-checks
only `_destroyed`, resets `_changed`, sets `_updating` and starts
`updateLocation`, which suspends at its first `lstat`: the pass is now in
flight. -/
def serAdmit (s : SerSystem) : SerSystem :=
  match s.microtasks with
  | [] => s
  | t :: rest =>
    if s.cache.destroyed then { s with microtasks := rest }
    else
      { s with microtasks := rest,
               cache := { s.cache with changed := false, updating := true },
               running := s.running ++ [t], admitted := s.admitted ++ [t] }

/-- `cache.emit(releaseEvent)` (line 578): the once-listeners run
synchronously in registration order; each re-invokes `whenReleased` (lines
792-799), whose executor re-checks `!cache._ready || cache._updating` at
that instant — the continuations it schedules have not run yet, so
`_updating` is still clear for every listener — and either schedules the
parked continuation as a microtask or re-registers the listener for the
next `release`. -/
def serRelease (s : SerSystem) : SerSystem :=
  (s.waiters).foldl
    (fun acc t =>
      if acc.cache.ready ∧ ¬acc.cache.updating then
        { acc with microtasks := acc.microtasks ++ [t] }
      else { acc with waiters := acc.waiters ++ [t] })
    { s with waiters := [] }

/-- Completion of the in-flight pass `t`: the continuation of
`listenChange` after `await updateLocation` (lines 567-578) clears
`_updating`, emits the aggregate `update` if the pass changed anything,
and emits the internal `release` event. -/
def serFinish (t : Nat) (s : SerSystem) : SerSystem :=
  serRelease
    { s with running := s.running.erase t, finished := s.finished ++ [t],
             cache := { s.cache with updating := false } }

/-- A ready, idle engine. -/
def serInit : SerSystem :=
  { cache := { ready := true, updating := false, changed := false,
               destroyed := false },
    waiters := [], microtasks := [], running := [], admitted := [],
    finished := [] }

/-- Trigger 0 fires on the idle engine and its pass is admitted; triggers 1
and 2 fire while pass 0 is in flight and park as release waiters; pass 0
completes and emits `release`; the event loop then drains the two
scheduled microtasks. -/
def serScenario : SerSystem :=
  serAdmit (serAdmit (serFinish 0 (serTrigger 2 (serTrigger 1
    (serAdmit (serTrigger 0 serInit))))))

/-- A cached directory element at `<root>/a` listing one child `b`. -/
def c4Dir : Element :=
  { content := Content.dirList ["b"], location := ["a"], path := "/tmp/root/a",
    stats := { mode := 0x41ED, mtimeMs := 1 }, type := ElementType.directory }

/-- The cached file element at `<root>/a/b`. -/
def c4File : Element :=
  { content := Content.fileBytes [1], location := ["a", "b"],
    path := "/tmp/root/a/b", stats := { mode := 0x81A4, mtimeMs := 2 },
    type := ElementType.file }

/-- A ready instance caching the directory and its child. -/
def c4State : CacheState :=
  { (initialState "/tmp/root" false) with
    ready := true
    container := [(["a"], c4Dir), (["a", "b"], c4File)] }

/-- A live, ready instance caching a root file, with the root watcher
(handle 0) and the root `watchFile` poll listener active: the state of a
freshly constructed cache on a single-file root. -/
def c2Element : Element :=
  { content := Content.nullc, location := [], path := "/tmp/root",
    stats := { mode := 0x81A4, mtimeMs := 1 }, type := ElementType.file }

/-- Concrete pre-destruction state for the destroy teardown check. -/
def c2State : CacheState :=
  { path := "/tmp/root", changed := false, container := [([], c2Element)],
    storeOpt := false, destroyed := false, listener := true, ready := true,
    updating := false, watchers := [([], 0)], watching := true,
    fileWatched := true, nextHandle := 1, closedHandles := [], events := [],
    reads := [] }

end Recache

namespace Recache

/-! ## Theorems about location normalization -/

theorem strStartsWith_append (p t : String) : strStartsWith (p ++ t) p = true := by
  simp only [strStartsWith, String.data_append]
  exact List.isPrefixOf_iff_prefix.mpr (List.prefix_append p.data t.data)

theorem normalize_starts_root (x : String) :
    strStartsWith (normalizeLocation x) rootSymbol = true := by
  unfold normalizeLocation
  split
  · decide
  · split
    · assumption
    · split
      · exact strStartsWith_append rootSymbol x
      · exact strStartsWith_append rootSymbol (solidus ++ x)

theorem starts_root_length (x : String)
    (h : strStartsWith x rootSymbol = true) : rootSymbol.length ≤ x.length := by
  have hp : rootSymbol.data <+: x.data := List.isPrefixOf_iff_prefix.mp h
  exact hp.length_le

theorem starts_root_not_short (x : String)
    (h : strStartsWith x rootSymbol = true) :
    ¬(x.length = 0 ∨ x = solidus) := by
  have hle := starts_root_length x h
  have hroot : rootSymbol.length = 6 := by decide
  rintro (h0 | hs)
  · omega
  · rw [hs] at hle
    have : solidus.length = 1 := by decide
    omega

/-- Claim C8: location normalization is idempotent; the empty string and the
path separator map to the root sentinel; a string that already starts with
the sentinel is returned unchanged; a string with a leading separator is
prefixed with the sentinel; any other string is prefixed with the sentinel
and a separator. -/
theorem claim_C8 :
    (∀ x : String, normalizeLocation (normalizeLocation x) = normalizeLocation x)
    ∧ normalizeLocation "" = rootSymbol
    ∧ normalizeLocation solidus = rootSymbol
    ∧ (∀ x : String, strStartsWith x rootSymbol = true → normalizeLocation x = x)
    ∧ (∀ x : String, ¬(x.length = 0 ∨ x = solidus) →
        strStartsWith x rootSymbol = false → strStartsWith x solidus = true →
        normalizeLocation x = rootSymbol ++ x)
    ∧ (∀ x : String, ¬(x.length = 0 ∨ x = solidus) →
        strStartsWith x rootSymbol = false → strStartsWith x solidus = false →
        normalizeLocation x = rootSymbol ++ solidus ++ x) := by
  have hfix : ∀ x : String, strStartsWith x rootSymbol = true →
      normalizeLocation x = x := by
    intro x h
    unfold normalizeLocation
    rw [if_neg (starts_root_not_short x h), if_pos h]
  refine ⟨?_, by decide, by decide, hfix, ?_, ?_⟩
  · intro x
    exact hfix (normalizeLocation x) (normalize_starts_root x)
  · intro x h0 h1 h2
    unfold normalizeLocation
    rw [if_neg h0, h1, if_neg (by decide), if_pos h2]
  · intro x h0 h1 h2
    unfold normalizeLocation
    rw [if_neg h0, h1, if_neg (by decide), h2, if_neg (by decide)]

/-- Witness for claim C8 at concrete inputs. -/
theorem claim_C8_witness :
    normalizeLocation (normalizeLocation "a/b") = normalizeLocation "a/b"
    ∧ normalizeLocation "<root>/a" = "<root>/a"
    ∧ normalizeLocation "/a" = rootSymbol ++ "/a" := by
  refine ⟨claim_C8.1 "a/b", claim_C8.2.2.2.1 "<root>/a" (by decide), ?_⟩
  exact claim_C8.2.2.2.2.1 "/a" (by decide) (by decide) (by decide)

/-! ## Destroy teardown (claim C2)

`destroy` sets `_destroyed` (line 202) and nulls `_listener` (line 206)
before calling `stop()` (line 211), but `stop` is guarded by
`!this._destroyed && this._watching` (line 298), so the call is a no-op:
no watcher is closed, the watcher map keeps its entries and the root
`watchFile` registration stays active.  Only the container is cleared. -/

/-- Claim C2, evaluated on a live ready instance with the root watch handle
and root poll listener active: after `destroy()` the element store is indeed
empty and the destroy notification is emitted, but the watch-handle map
still holds its entry, no handle has been closed, and the root path is
still being watched — contradicting the claim that every handle is closed,
the map is empty and the root listener is unregistered. -/
theorem claim_C2_destroy_leaks_watchers :
    (destroy c2State).destroyed = true
    ∧ (destroy c2State).container = []
    ∧ Event.destroyEv ∈ (destroy c2State).events
    ∧ (destroy c2State).watchers = [([], 0)]
    ∧ (destroy c2State).closedHandles = []
    ∧ (destroy c2State).fileWatched = true := by
  decide

/-! ## Stat success with an unmodelled kind (claim C3) -/

/-- Counterexample to claim C3: on a ready instance caching the plain file
at `<root>/a`, a reconciliation of that location whose stat reports a
socket leaves the existing element in the store (and the whole state
untouched), whereas the claim says the element is removed. -/
theorem claim_C3_counterexample :
    updateLocation c3Env 3 c3State ["a"] = c3State
    ∧ mget (updateLocation c3Env 3 c3State ["a"]).container ["a"] = some c3Element := by
  decide

/-- Claim C3 (amended): for every location whose stat succeeds with a kind
the engine does not model, `updateLocation` leaves the state untouched — an
existing element at that location is kept unchanged, and nothing is created
when no element exists. -/
theorem claim_C3_unknown_kind_untouched (env : Env) (fuel : Nat) (s : CacheState)
    (location : Loc) (stats : Stats)
    (hstat : env.stat (locationPath s.path location) = some stats)
    (hd : s.destroyed = false)
    (hdir : stats.isDir = false) (hfile : stats.isFileKind = false) :
    updateLocation env (fuel + 1) s location = s := by
  simp [updateLocation, hstat, hd, hdir, hfile]

/-- Witness for the amended claim C3 at the socket scenario. -/
theorem claim_C3_witness : updateLocation c3Env 1 c3State ["a"] = c3State :=
  claim_C3_unknown_kind_untouched c3Env 0 c3State ["a"] c3Stats rfl rfl
    (by decide) (by decide)

/-! ## Unchanged modification time (claim C5) -/

/-- Claim C5: when the re-stat of an existing element reports the stored
modification time, the element is treated as unchanged — with a file
content (bytes or null) the whole state is left untouched, so no `change`
notification is emitted even when the bytes on disk differ; with a
directory content list every listed child is re-reconciled via
`iterateDirectory`. -/
theorem claim_C5_mtime_equal (env : Env) (fuel : Nat) (s : CacheState)
    (location : Loc) (element : Element) (stats : Stats)
    (hstat : env.stat (locationPath s.path location) = some stats)
    (hd : s.destroyed = false)
    (hkind : stats.isDir = true ∨ stats.isFileKind = true)
    (helem : mget s.container location = some element)
    (hmtime : element.stats.mtimeMs = stats.mtimeMs) :
    (∀ bytes, element.content = Content.fileBytes bytes →
      updateLocation env (fuel + 1) s location = s)
    ∧ (element.content = Content.nullc →
      updateLocation env (fuel + 1) s location = s)
    ∧ (∀ children, element.content = Content.dirList children →
      updateLocation env (fuel + 1) s location =
        iterateDirectory (fun st l => updateLocation env fuel st l) location s
          children) := by
  have hk : (stats.isDir ∨ stats.isFileKind) := by
    rcases hkind with h | h
    · exact Or.inl (by simp [h])
    · exact Or.inr (by simp [h])
  refine ⟨?_, ?_, ?_⟩
  · intro bytes hc
    simp [updateLocation, hstat, hd, hk, helem, hmtime, hc]
  · intro hc
    simp [updateLocation, hstat, hd, hk, helem, hmtime, hc]
  · intro children hc
    simp [updateLocation, hstat, hd, hk, helem, hmtime, hc]

/-- Witness for claim C5: the cached file's bytes changed on disk but the
modification time did not; the pass leaves the state untouched and emits
nothing. -/
theorem claim_C5_witness : updateLocation c5Env 2 c5State ["f"] = c5State :=
  (claim_C5_mtime_equal c5Env 1 c5State ["f"] c5FileElement c5Stats rfl rfl
    (Or.inr (by decide)) (by decide) (by decide)).1 [1, 2] (by decide)

/-! ## Reads on a destroyed instance (claim C7) -/

theorem updateLocation_destroyed (env : Env) (fuel : Nat) (s : CacheState)
    (location : Loc) (hd : s.destroyed = true) :
    updateLocation env fuel s location = s := by
  cases fuel with
  | zero => rfl
  | succ n =>
    unfold updateLocation
    cases henv : env.stat (locationPath s.path location) with
    | none => simp [henv, emitElementError, hd]
    | some stats => simp [henv, emitElementError, hd]

theorem destroy_destroyed (s : CacheState) (hd : s.destroyed = false) :
    (destroy s).destroyed = true ∧ (destroy s).container = [] := by
  simp [destroy, hd, stop]

/-- Claim C7: after `destroy()` on a live instance — and after any further
reconciliation passes triggered on the destroyed instance — `get` returns
null, `has` returns false and `list` returns the empty list, for every
location and filter, without throwing. -/
theorem claim_C7_reads_after_destroy (env : Env) (fuel : Nat) (s : CacheState)
    (triggers : List Loc) (location : Loc) (flt : Option (Loc → Bool))
    (hd : s.destroyed = false) :
    getElement
        (triggers.foldl (fun st l => updateLocation env fuel st l) (destroy s))
        location = none
    ∧ hasLoc
        (triggers.foldl (fun st l => updateLocation env fuel st l) (destroy s))
        location = false
    ∧ listLocs
        (triggers.foldl (fun st l => updateLocation env fuel st l) (destroy s))
        flt = [] := by
  have hfold : ∀ (ts : List Loc) (st : CacheState), st.destroyed = true →
      ts.foldl (fun st l => updateLocation env fuel st l) st = st := by
    intro ts
    induction ts with
    | nil => intro st _; rfl
    | cons t ts ih =>
      intro st h1
      rw [List.foldl_cons, updateLocation_destroyed env fuel st t h1]
      exact ih st h1
  have hde := destroy_destroyed s hd
  rw [hfold triggers (destroy s) hde.1]
  refine ⟨?_, ?_, ?_⟩
  · rw [getElement, hde.2]; rfl
  · simp [hasLoc, hde.1]
  · simp [listLocs, hde.1]

/-- Witness for claim C7 on a live concrete instance, with one further
reconciliation pass triggered after destruction. -/
theorem claim_C7_witness :
    getElement
        (([["a"]] : List Loc).foldl
          (fun st l => updateLocation emptyEnv 2 st l) (destroy c2State)) [] = none
    ∧ hasLoc
        (([["a"]] : List Loc).foldl
          (fun st l => updateLocation emptyEnv 2 st l) (destroy c2State)) [] = false
    ∧ listLocs
        (([["a"]] : List Loc).foldl
          (fun st l => updateLocation emptyEnv 2 st l) (destroy c2State))
        (none : Option (Loc → Bool)) = [] :=
  claim_C7_reads_after_destroy emptyEnv 2 c2State [["a"]] []
    (none : Option (Loc → Bool)) (by decide)

/-! ## File content loading (claim C9) -/

/-- Claim C9: with the `store` option disabled, loading a file's content
resolves to the null content without reading the file (the state, including
the read log, is untouched); with it enabled, on a live instance whose read
succeeds, it reads the file and returns its full byte content. -/
theorem claim_C9_file_content (env : Env) (ufuel : Nat) (s : CacheState)
    (path : String) (location : Loc) :
    (s.storeOpt = false →
      getFileContent env ufuel s path location = (s, Content.nullc))
    ∧ (∀ bytes, s.storeOpt = true → s.destroyed = false →
      env.readFile path = some bytes →
      getFileContent env ufuel s path location =
        ({ s with reads := s.reads ++ [path] }, Content.fileBytes bytes)) := by
  constructor
  · intro h
    simp [getFileContent, h]
  · intro bytes h1 h2 h3
    simp [getFileContent, h1, h2, h3]

/-- Witness for claim C9 with the option disabled and enabled. -/
theorem claim_C9_witness :
    getFileContent c9Env 1 c9StateOff "/tmp/root" [] = (c9StateOff, Content.nullc)
    ∧ getFileContent c9Env 1 c9StateOn "/tmp/root" [] =
        ({ c9StateOn with reads := c9StateOn.reads ++ ["/tmp/root"] },
          Content.fileBytes [104, 105]) :=
  ⟨(claim_C9_file_content c9Env 1 c9StateOff "/tmp/root" []).1 rfl,
   (claim_C9_file_content c9Env 1 c9StateOn "/tmp/root" []).2 [104, 105] rfl rfl rfl⟩

/-! ## Creation before readiness (claim C10) -/

theorem foldl_inv {α : Type} (P : CacheState → Prop) (f : CacheState → α → CacheState)
    (h : ∀ st c, P st → P (f st c)) :
    ∀ (l : List α) (st : CacheState), P st → P (l.foldl f st) := by
  intro l
  induction l with
  | nil => intro st hp; exact hp
  | cons c cs ih => intro st hp; exact ih (f st c) (h st c hp)

theorem unlinkElement_absent (fuel : Nat) (s : CacheState) (location : Loc)
    (habs : mget s.container location = none) :
    unlinkElement fuel s location = s := by
  cases fuel with
  | zero => rfl
  | succ n => simp [unlinkElement, habs]

theorem emitElementError_absent (fuel : Nat) (s : CacheState) (location : Loc)
    (habs : mget s.container location = none) :
    emitElementError fuel s location =
      if s.destroyed then s
      else { s with events := s.events ++ [Event.errorEv location] } := by
  unfold emitElementError
  by_cases hd : s.destroyed
  · simp [hd]
  · simp only [hd, Bool.false_eq_true, not_false_eq_true, if_true, if_false]
    exact unlinkElement_absent fuel _ location habs

theorem creationEvents_append (a b : List Event) :
    creationEvents (a ++ b) = creationEvents a ++ creationEvents b := by
  simp [creationEvents]

theorem emitElementError_absent_fields (fuel : Nat) (s : CacheState)
    (location : Loc) (habs : mget s.container location = none) :
    (emitElementError fuel s location).ready = s.ready
    ∧ mget (emitElementError fuel s location).container location = none
    ∧ (emitElementError fuel s location).changed = s.changed
    ∧ creationEvents (emitElementError fuel s location).events
        = creationEvents s.events := by
  rw [emitElementError_absent fuel s location habs]
  by_cases hd : s.destroyed <;>
    simp [hd, habs, creationEvents_append, creationEvents]

theorem addWatcher_quiet (s : CacheState) (path : String) (location : Loc) :
    (addWatcher s path location).ready = s.ready
    ∧ (addWatcher s path location).changed = s.changed
    ∧ creationEvents (addWatcher s path location).events = creationEvents s.events
    ∧ ∀ e, e ∈ s.events → e ∈ (addWatcher s path location).events := by
  unfold addWatcher
  by_cases hw : s.watching
  · by_cases hr : location = ([] : Loc)
    · refine ⟨by simp [hw, hr], by simp [hw, hr],
        by simp [hw, hr, creationEvents_append, creationEvents], ?_⟩
      intro e he
      simp only [hw, hr, if_true, if_pos]
      exact List.mem_append_left _ he
    · refine ⟨by simp [hw, hr], by simp [hw, hr],
        by simp [hw, hr, creationEvents_append, creationEvents], ?_⟩
      intro e he
      simp only [hw, hr, if_true, if_false]
      exact List.mem_append_left _ he
  · simp [hw]

theorem storeElement_ready (s : CacheState) (location : Loc) (element : Element) :
    (storeElement s location element).ready = s.ready := rfl

theorem emitCreated_not_ready (s : CacheState) (type : ElementType)
    (element : Element) (h : s.ready = false) :
    emitCreated s type element = s := by
  simp [emitCreated, h]

theorem emitCreated_ready (s : CacheState) (type : ElementType)
    (element : Element) (h : s.ready = true) :
    (emitCreated s type element).changed = true
    ∧ (emitCreated s type element).events
        = s.events ++ [kindEvent type element] := by
  simp [emitCreated, h]

theorem getContent_quiet (env : Env) (ufuel : Nat)
    (upd : CacheState → Loc → CacheState) (s : CacheState) (type : ElementType)
    (path : String) (location : Loc)
    (hq : UpdQuiet upd location)
    (habs : mget s.container location = none) :
    (getContent env ufuel upd s type path location).1.ready = s.ready
    ∧ mget (getContent env ufuel upd s type path location).1.container location = none
    ∧ (s.ready = false →
        (getContent env ufuel upd s type path location).1.changed = s.changed
        ∧ creationEvents (getContent env ufuel upd s type path location).1.events
            = creationEvents s.events) := by
  cases type with
  | directory =>
    cases hr : env.readdir path with
    | some content =>
      by_cases hd : s.destroyed
      · simp only [getContent, getDirectoryContent, hr]
        rw [if_pos hd]
        exact ⟨(emitElementError_absent_fields _ _ _ habs).1,
          (emitElementError_absent_fields _ _ _ habs).2.1,
          fun _ => ⟨(emitElementError_absent_fields _ _ _ habs).2.2.1,
            (emitElementError_absent_fields _ _ _ habs).2.2.2⟩⟩
      · simp only [getContent, getDirectoryContent, hr]
        rw [if_neg hd]
        have hfold := foldl_inv
          (fun st => st.ready = s.ready ∧ mget st.container location = none
            ∧ (s.ready = false → st.changed = s.changed
                ∧ creationEvents st.events = creationEvents s.events))
          (fun st child => upd st (location ++ [child]))
          (by
            intro st c hp
            refine ⟨?_, (hq st (location ++ [c])).2.2 hp.2.1, ?_⟩
            · rw [(hq st (location ++ [c])).1]; exact hp.1
            · intro hready
              have hst : st.ready = false := hp.1.trans hready
              have h2 := (hq st (location ++ [c])).2.1 hst
              exact ⟨h2.1.trans ((hp.2.2 hready).1),
                h2.2.trans ((hp.2.2 hready).2)⟩)
          content s ⟨rfl, habs, fun _ => ⟨rfl, rfl⟩⟩
        exact ⟨hfold.1, hfold.2.1, hfold.2.2⟩
    | none =>
      simp only [getContent, getDirectoryContent, hr]
      exact ⟨(emitElementError_absent_fields _ _ _ habs).1,
        (emitElementError_absent_fields _ _ _ habs).2.1,
        fun _ => ⟨(emitElementError_absent_fields _ _ _ habs).2.2.1,
          (emitElementError_absent_fields _ _ _ habs).2.2.2⟩⟩
  | file =>
    by_cases hst : s.storeOpt
    · cases hr : env.readFile path with
      | some bytes =>
        by_cases hd : s.destroyed
        · simp only [getContent, getFileContent, hr]
          rw [if_pos hst, if_pos hd]
          exact ⟨(emitElementError_absent_fields ufuel
              { s with reads := s.reads ++ [path] } location habs).1,
            (emitElementError_absent_fields ufuel
              { s with reads := s.reads ++ [path] } location habs).2.1,
            fun _ => ⟨(emitElementError_absent_fields ufuel
                { s with reads := s.reads ++ [path] } location habs).2.2.1,
              (emitElementError_absent_fields ufuel
                { s with reads := s.reads ++ [path] } location habs).2.2.2⟩⟩
        · simp only [getContent, getFileContent, hr]
          rw [if_pos hst, if_neg hd]
          exact ⟨rfl, habs, fun _ => ⟨rfl, rfl⟩⟩
      | none =>
        simp only [getContent, getFileContent, hr]
        rw [if_pos hst]
        exact ⟨(emitElementError_absent_fields ufuel
            { s with reads := s.reads ++ [path] } location habs).1,
          (emitElementError_absent_fields ufuel
            { s with reads := s.reads ++ [path] } location habs).2.1,
          fun _ => ⟨(emitElementError_absent_fields ufuel
              { s with reads := s.reads ++ [path] } location habs).2.2.1,
            (emitElementError_absent_fields ufuel
              { s with reads := s.reads ++ [path] } location habs).2.2.2⟩⟩
    · simp only [getContent, getFileContent]
      rw [if_neg hst]
      exact ⟨rfl, habs, fun _ => ⟨rfl, rfl⟩⟩

/-- Claim C10: an element created while the cache is not yet ready (the
construction pass) produces no per-kind creation notification and leaves
the pass-changed flag untouched; once the cache is ready, creating the
element sets the changed flag and emits the per-kind creation event for
the created element.  The recursive child reconciliation of directory
content is abstracted by any callback satisfying `UpdQuiet`. -/
theorem claim_C10_creation_gated_on_ready (env : Env) (ufuel : Nat)
    (upd : CacheState → Loc → CacheState) (s : CacheState) (path : String)
    (location : Loc) (stats : Stats)
    (hq : UpdQuiet upd location)
    (habs : mget s.container location = none) :
    (s.ready = false →
      (createElement env ufuel upd s path location stats).changed = s.changed
      ∧ creationEvents (createElement env ufuel upd s path location stats).events
          = creationEvents s.events)
    ∧ (∀ type, s.ready = true → typesTable (stats.mode &&& S_IFMT) = some type →
      (createElement env ufuel upd s path location stats).changed = true
      ∧ ∃ element : Element, element.location = location ∧ element.type = type
          ∧ kindEvent type element
              ∈ (createElement env ufuel upd s path location stats).events) := by
  constructor
  · intro hready
    cases hty : typesTable (stats.mode &&& S_IFMT) with
    | none =>
      have he := emitElementError_absent_fields ufuel s location habs
      simp only [createElement, hty]
      exact ⟨he.2.2.1, he.2.2.2⟩
    | some type =>
      have hg := getContent_quiet env ufuel upd s type path location hq habs
      simp only [createElement, hty]
      rw [emitCreated_not_ready _ type _ ((storeElement_ready _ _ _).trans
        (hg.1.trans hready))]
      by_cases hw : type = ElementType.directory ∨ location = ([] : Loc)
      · simp only [hw, if_true]
        have haw := addWatcher_quiet (storeElement
          (getContent env ufuel upd s type path location).1 location
          { content := (getContent env ufuel upd s type path location).2,
            location := location, path := path, stats := stats, type := type })
          path location
        exact ⟨haw.2.1.trans ((hg.2.2 hready).1),
          haw.2.2.1.trans ((hg.2.2 hready).2)⟩
      · simp only [hw, if_false]
        exact ⟨(hg.2.2 hready).1, (hg.2.2 hready).2⟩
  · intro type hready hty
    have hg := getContent_quiet env ufuel upd s type path location hq habs
    have hsr : (storeElement (getContent env ufuel upd s type path location).1
        location
        { content := (getContent env ufuel upd s type path location).2,
          location := location, path := path, stats := stats,
          type := type }).ready = true :=
      (storeElement_ready _ _ _).trans (hg.1.trans hready)
    have hec := emitCreated_ready
      (storeElement (getContent env ufuel upd s type path location).1 location
        { content := (getContent env ufuel upd s type path location).2,
          location := location, path := path, stats := stats, type := type })
      type
      { content := (getContent env ufuel upd s type path location).2,
        location := location, path := path, stats := stats, type := type } hsr
    simp only [createElement, hty]
    by_cases hw : type = ElementType.directory ∨ location = ([] : Loc)
    · simp only [hw, if_true]
      have haw := addWatcher_quiet (emitCreated (storeElement
        (getContent env ufuel upd s type path location).1 location
        { content := (getContent env ufuel upd s type path location).2,
          location := location, path := path, stats := stats, type := type }) type
        { content := (getContent env ufuel upd s type path location).2,
          location := location, path := path, stats := stats, type := type })
        path location
      refine ⟨haw.2.1.trans hec.1,
        { content := (getContent env ufuel upd s type path location).2,
          location := location, path := path, stats := stats, type := type },
        rfl, rfl, ?_⟩
      refine haw.2.2.2 _ ?_
      rw [hec.2]
      exact List.mem_append_right _ (List.mem_singleton.mpr rfl)
    · simp only [hw, if_false]
      refine ⟨hec.1,
        { content := (getContent env ufuel upd s type path location).2,
          location := location, path := path, stats := stats, type := type },
        rfl, rfl, ?_⟩
      rw [hec.2]
      exact List.mem_append_right _ (List.mem_singleton.mpr rfl)

/-- Witness for claim C10: a file created during the construction pass of a
fresh instance emits no creation event and leaves the changed flag clear;
the identity callback satisfies `UpdQuiet`. -/
theorem claim_C10_witness :
    (createElement emptyEnv 1 (fun s' _ => s') (initialState "/tmp/root" false)
      "/tmp/root" [] { mode := 0x81A4, mtimeMs := 1 }).changed
        = (initialState "/tmp/root" false).changed
    ∧ creationEvents (createElement emptyEnv 1 (fun s' _ => s')
        (initialState "/tmp/root" false) "/tmp/root" []
        { mode := 0x81A4, mtimeMs := 1 }).events
      = creationEvents (initialState "/tmp/root" false).events :=
  (claim_C10_creation_gated_on_ready emptyEnv 1 (fun s' _ => s')
    (initialState "/tmp/root" false) "/tmp/root" [] { mode := 0x81A4, mtimeMs := 1 }
    (fun _ _ => ⟨rfl, fun _ => ⟨rfl, rfl⟩, fun h => h⟩) rfl).1 rfl

/-! ## Construction outcome (claim C6)

The construction pass emits no readiness event and records a destroy event
whenever it destroys the cache; `prepareCache` then decides between
self-destruction and readiness. -/

theorem evCarry_refl (s : CacheState) : EvCarry s s :=
  ⟨fun _ h => h, fun h => h, fun h => Or.inl h⟩

theorem evCarry_trans {a b c : CacheState} (h1 : EvCarry a b) (h2 : EvCarry b c) :
    EvCarry a c := by
  refine ⟨fun e he => h2.1 e (h1.1 e he), fun h => h1.2.1 (h2.2.1 h), fun h => ?_⟩
  rcases h2.2.2 h with hb | hc
  · rcases h1.2.2 hb with ha | hb2
    · exact Or.inl ha
    · exact Or.inr (h2.1 _ hb2)
  · exact Or.inr hc

theorem evCarry_of_append (s t : CacheState) (l : List Event)
    (hev : t.events = s.events ++ l) (hnr : Event.readyEv ∉ l)
    (hd : t.destroyed = s.destroyed) : EvCarry s t := by
  refine ⟨?_, ?_, ?_⟩
  · intro e he; rw [hev]; exact List.mem_append_left _ he
  · intro h; rw [hev] at h
    rcases List.mem_append.mp h with h | h
    · exact h
    · exact absurd h hnr
  · intro h; rw [hd] at h; exact Or.inl h

theorem evCarry_same_events (s t : CacheState) (hev : t.events = s.events)
    (hd : t.destroyed = s.destroyed) : EvCarry s t :=
  evCarry_of_append s t [] (by rw [hev, List.append_nil]) (by simp) hd

theorem evCarry_foldl {α : Type} (f : CacheState → α → CacheState)
    (h : ∀ st c, EvCarry st (f st c)) (l : List α) :
    ∀ st, EvCarry st (l.foldl f st) := by
  induction l with
  | nil => intro st; exact evCarry_refl st
  | cons c cs ih => intro st; exact evCarry_trans (h st c) (ih (f st c))

theorem destroy_spec (s : CacheState) (hd : s.destroyed = false) :
    (destroy s).destroyed = true ∧ (destroy s).container = []
    ∧ (destroy s).events = s.events ++ [Event.destroyEv] := by
  unfold destroy
  rw [if_pos (by simp [hd])]
  simp [stop]

theorem evCarry_destroy (s : CacheState) : EvCarry s (destroy s) := by
  by_cases hd : s.destroyed
  · unfold destroy; rw [if_neg (by simp [hd])]; exact evCarry_refl s
  · simp only [Bool.not_eq_true] at hd
    have h := destroy_spec s hd
    refine ⟨?_, ?_, ?_⟩
    · intro e he; rw [h.2.2]; exact List.mem_append_left _ he
    · intro hr; rw [h.2.2] at hr
      rcases List.mem_append.mp hr with hr | hr
      · exact hr
      · simp at hr
    · intro _
      right
      rw [h.2.2]
      exact List.mem_append_right _ (by simp)

theorem addWatcher_fields (s : CacheState) (path : String) (location : Loc) :
    (addWatcher s path location).destroyed = s.destroyed
    ∧ ((addWatcher s path location).events = s.events
        ∨ (addWatcher s path location).events = s.events ++ [Event.watchEv path]) := by
  unfold addWatcher
  by_cases hw : s.watching
  · by_cases hr : location = ([] : Loc) <;> simp [hw, hr]
  · simp [hw]

theorem evCarry_addWatcher (s : CacheState) (path : String) (location : Loc) :
    EvCarry s (addWatcher s path location) := by
  have h := addWatcher_fields s path location
  rcases h.2 with he | he
  · exact evCarry_same_events s _ he h.1
  · exact evCarry_of_append s _ [Event.watchEv path] he (by simp) h.1

theorem evCarry_unlinkContent (ul : CacheState → Loc → CacheState)
    (hul : ∀ st l, EvCarry st (ul st l)) (location : Loc) (s : CacheState)
    (element : Element) : EvCarry s (unlinkContent ul location s element) := by
  rcases element with ⟨content, eloc, epath, estats, etype⟩
  cases etype with
  | file => exact evCarry_refl s
  | directory =>
    cases content with
    | dirList children =>
      simp only [unlinkContent]
      cases hw : mget s.watchers location with
      | some handle =>
        exact evCarry_trans
          (evCarry_same_events s
            { s with closedHandles := s.closedHandles ++ [handle],
                     watchers := mdelete s.watchers location } rfl rfl)
          (evCarry_foldl _ (fun st c => hul st (location ++ [c])) children _)
      | none => exact evCarry_foldl _ (fun st c => hul st (location ++ [c])) children s
    | fileBytes bytes => exact evCarry_refl s
    | nullc => exact evCarry_refl s

theorem evCarry_unlinkFinish (s : CacheState) (location : Loc) (element : Element) :
    EvCarry s (unlinkFinish s location element) := by
  have hbase : EvCarry s
      { s with container := mdelete s.container location, changed := true,
               events := s.events ++ [Event.unlinkEv element] } :=
    evCarry_of_append _ _ [Event.unlinkEv element] rfl (by simp) rfl
  simp only [unlinkFinish]
  by_cases hr : location = ([] : Loc)
  · rw [if_pos hr]
    exact evCarry_trans hbase (evCarry_destroy _)
  · rw [if_neg hr]
    exact hbase

theorem evCarry_unlinkElement :
    ∀ (fuel : Nat) (s : CacheState) (location : Loc),
      EvCarry s (unlinkElement fuel s location)
  | 0, s, _ => evCarry_refl s
  | (fuel + 1), s, location => by
    simp only [unlinkElement]
    cases hm : mget s.container location with
    | none => exact evCarry_refl s
    | some element =>
      exact evCarry_trans
        (evCarry_unlinkContent _ (fun st l => evCarry_unlinkElement fuel st l)
          location s element)
        (evCarry_unlinkFinish _ location element)

theorem evCarry_emitElementError (fuel : Nat) (s : CacheState) (location : Loc) :
    EvCarry s (emitElementError fuel s location) := by
  unfold emitElementError
  by_cases hd : s.destroyed
  · rw [if_neg (by simp [hd])]; exact evCarry_refl s
  · rw [if_pos (by simp [hd])]
    exact evCarry_trans
      (evCarry_of_append s { s with events := s.events ++ [Event.errorEv location] }
        [Event.errorEv location] rfl (by simp) rfl)
      (evCarry_unlinkElement fuel
        { s with events := s.events ++ [Event.errorEv location] } location)

theorem evCarry_getFileContent (env : Env) (ufuel : Nat) (s : CacheState)
    (path : String) (location : Loc) :
    EvCarry s (getFileContent env ufuel s path location).1 := by
  by_cases hst : s.storeOpt
  · cases hr : env.readFile path with
    | some bytes =>
      by_cases hd : s.destroyed
      · simp only [getFileContent, hr]
        rw [if_pos hst, if_pos hd]
        exact evCarry_trans
          (evCarry_same_events s { s with reads := s.reads ++ [path] } rfl rfl)
          (evCarry_emitElementError ufuel { s with reads := s.reads ++ [path] }
            location)
      · simp only [getFileContent, hr]
        rw [if_pos hst, if_neg hd]
        exact evCarry_same_events s { s with reads := s.reads ++ [path] } rfl rfl
    | none =>
      simp only [getFileContent, hr]
      rw [if_pos hst]
      exact evCarry_trans
        (evCarry_same_events s { s with reads := s.reads ++ [path] } rfl rfl)
        (evCarry_emitElementError ufuel { s with reads := s.reads ++ [path] }
          location)
  · simp only [getFileContent]
    rw [if_neg hst]
    exact evCarry_refl s

theorem evCarry_iterateDirectory (upd : CacheState → Loc → CacheState)
    (hupd : UpdCarry upd) (location : Loc) (s : CacheState)
    (content : List String) :
    EvCarry s (iterateDirectory upd location s content) :=
  evCarry_foldl _ (fun st c => hupd st (location ++ [c])) content s

theorem evCarry_getDirectoryContent (env : Env) (ufuel : Nat)
    (upd : CacheState → Loc → CacheState) (hupd : UpdCarry upd) (s : CacheState)
    (path : String) (location : Loc) :
    EvCarry s (getDirectoryContent env ufuel upd s path location).1 := by
  cases hr : env.readdir path with
  | some content =>
    simp only [getDirectoryContent, hr]
    by_cases hd : s.destroyed
    · rw [if_pos hd]
      exact evCarry_emitElementError ufuel s location
    · rw [if_neg hd]
      exact evCarry_iterateDirectory upd hupd location s content
  | none =>
    simp only [getDirectoryContent, hr]
    exact evCarry_emitElementError ufuel s location

theorem evCarry_getContent (env : Env) (ufuel : Nat)
    (upd : CacheState → Loc → CacheState) (hupd : UpdCarry upd) (s : CacheState)
    (type : ElementType) (path : String) (location : Loc) :
    EvCarry s (getContent env ufuel upd s type path location).1 := by
  cases type with
  | directory => exact evCarry_getDirectoryContent env ufuel upd hupd s path location
  | file => exact evCarry_getFileContent env ufuel s path location

theorem kindEvent_ne_ready (type : ElementType) (element : Element) :
    kindEvent type element ≠ Event.readyEv := by
  cases type <;> simp [kindEvent]

theorem evCarry_emitCreated (s : CacheState) (type : ElementType)
    (element : Element) : EvCarry s (emitCreated s type element) := by
  unfold emitCreated
  by_cases hready : s.ready
  · rw [if_pos hready]
    refine evCarry_of_append s _ [kindEvent type element] rfl ?_ rfl
    intro h
    rcases List.mem_singleton.mp h with h
    exact absurd h.symm (kindEvent_ne_ready type element)
  · rw [if_neg hready]
    exact evCarry_refl s

theorem evCarry_createElement (env : Env) (ufuel : Nat)
    (upd : CacheState → Loc → CacheState) (hupd : UpdCarry upd) (s : CacheState)
    (path : String) (location : Loc) (stats : Stats) :
    EvCarry s (createElement env ufuel upd s path location stats) := by
  unfold createElement
  cases typesTable (stats.mode &&& S_IFMT) with
  | none => exact evCarry_emitElementError ufuel s location
  | some type =>
    simp only
    have h1 := evCarry_getContent env ufuel upd hupd s type path location
    have h2 : EvCarry (getContent env ufuel upd s type path location).1
        (storeElement (getContent env ufuel upd s type path location).1 location
          { content := (getContent env ufuel upd s type path location).2,
            location := location, path := path, stats := stats, type := type }) :=
      evCarry_same_events _ _ rfl rfl
    have h3 := evCarry_emitCreated
      (storeElement (getContent env ufuel upd s type path location).1 location
        { content := (getContent env ufuel upd s type path location).2,
          location := location, path := path, stats := stats, type := type })
      type
      { content := (getContent env ufuel upd s type path location).2,
        location := location, path := path, stats := stats, type := type }
    have h123 := evCarry_trans (evCarry_trans h1 h2) h3
    by_cases hw : type = ElementType.directory ∨ location = ([] : Loc)
    · rw [if_pos hw]
      exact evCarry_trans h123 (evCarry_addWatcher _ path location)
    · rw [if_neg hw]
      exact h123

theorem evCarry_updateElementDiff (ufuel : Nat) (s : CacheState)
    (element : Element) (newContent : Content) :
    EvCarry s (updateElementDiff ufuel s element newContent) := by
  rcases element with ⟨content, eloc, epath, estats, etype⟩
  cases etype with
  | file => exact evCarry_refl s
  | directory =>
    cases content with
    | dirList oldChildren =>
      cases newContent with
      | dirList newChildren =>
        exact evCarry_foldl _
          (fun st c => evCarry_unlinkElement ufuel st (eloc ++ [c])) _ s
      | fileBytes bytes => exact evCarry_refl s
      | nullc => exact evCarry_refl s
    | fileBytes bytes => exact evCarry_refl s
    | nullc => exact evCarry_refl s

theorem evCarry_updateElement (env : Env) (ufuel : Nat)
    (upd : CacheState → Loc → CacheState) (hupd : UpdCarry upd) (s : CacheState)
    (element : Element) (stats : Stats) :
    EvCarry s (updateElement env ufuel upd s element stats) := by
  simp only [updateElement]
  refine evCarry_trans (evCarry_trans (evCarry_trans
    (evCarry_getContent env ufuel upd hupd s element.type element.path
      element.location)
    (evCarry_same_events _
      { (getContent env ufuel upd s element.type element.path element.location).1 with
        container := msetIfPresent (getContent env ufuel upd s element.type
            element.path element.location).1.container element.location
          { element with
            content := (getContent env ufuel upd s element.type element.path
              element.location).2,
            stats := stats },
        changed := true } rfl rfl))
    (evCarry_updateElementDiff ufuel _ element
      (getContent env ufuel upd s element.type element.path element.location).2))
    (evCarry_of_append _ _ [Event.changeEv
      { element with
        content := (getContent env ufuel upd s element.type element.path
          element.location).2,
        stats := stats }] rfl ?_ rfl)
  intro h
  rcases List.mem_singleton.mp h with h
  simp at h

theorem evCarry_updateLocation (env : Env) :
    ∀ (fuel : Nat) (s : CacheState) (location : Loc),
      EvCarry s (updateLocation env fuel s location)
  | 0, s, _ => evCarry_refl s
  | (fuel + 1), s, location => by
    cases hstat : env.stat (locationPath s.path location) with
    | none =>
      simp only [updateLocation, hstat]
      exact evCarry_emitElementError fuel s location
    | some stats =>
      simp only [updateLocation, hstat]
      by_cases hd : s.destroyed
      · rw [if_pos hd]
        exact evCarry_emitElementError fuel s location
      · rw [if_neg hd]
        by_cases hk : (stats.isDir ∨ stats.isFileKind : Prop)
        · rw [if_pos hk]
          cases hm : mget s.container location with
          | some element =>
            dsimp only
            by_cases hmt : element.stats.mtimeMs ≠ stats.mtimeMs
            · rw [if_pos hmt]
              exact evCarry_updateElement env fuel _
                (fun st l => evCarry_updateLocation env fuel st l) s element stats
            · rw [if_neg hmt]
              cases element.content with
              | dirList content =>
                exact evCarry_iterateDirectory _
                  (fun st l => evCarry_updateLocation env fuel st l) location s
                  content
              | fileBytes bytes => exact evCarry_refl s
              | nullc => exact evCarry_refl s
          | none =>
            dsimp only
            by_cases ha : isPathAccepted env (locationPath s.path location) stats
            · rw [if_pos ha]
              exact evCarry_createElement env fuel _
                (fun st l => evCarry_updateLocation env fuel st l) s
                (locationPath s.path location) location stats
            · rw [if_neg ha]
              exact evCarry_refl s
        · rw [if_neg hk]
          exact evCarry_refl s


/-- Claim C6: starting from a fresh instance, if the construction pass
leaves no root element in the store, `prepareCache` destroys the engine:
the destroy notification is on record and the readiness notification was
never emitted.  Otherwise, when the pass ends live with a root element,
the engine becomes ready, emits readiness, and the root element is in the
store. -/
theorem claim_C6_construction_outcome (env : Env) (fuel : Nat) (path : String)
    (storeOpt : Bool) :
    (mget (updateLocation env fuel (initialState path storeOpt) []).container []
        = none →
      (prepareCache env fuel (initialState path storeOpt)).destroyed = true
      ∧ Event.destroyEv ∈ (prepareCache env fuel (initialState path storeOpt)).events
      ∧ Event.readyEv ∉ (prepareCache env fuel (initialState path storeOpt)).events)
    ∧ (∀ e, mget (updateLocation env fuel (initialState path storeOpt) []).container []
        = some e →
      (updateLocation env fuel (initialState path storeOpt) []).destroyed = false →
      (prepareCache env fuel (initialState path storeOpt)).ready = true
      ∧ Event.readyEv ∈ (prepareCache env fuel (initialState path storeOpt)).events
      ∧ mget (prepareCache env fuel (initialState path storeOpt)).container []
          = some e) := by
  have hcarry := evCarry_updateLocation env fuel (initialState path storeOpt) []
  constructor
  · intro hnone
    have hhas : hasLoc (updateLocation env fuel (initialState path storeOpt) []) []
        = false := by
      simp [hasLoc, hnone]
    simp only [prepareCache]
    rw [hhas]
    simp only [Bool.false_eq_true, not_false_eq_true, if_true]
    by_cases hd : (updateLocation env fuel (initialState path storeOpt) []).destroyed
    · have hdes : destroy (updateLocation env fuel (initialState path storeOpt) [])
          = updateLocation env fuel (initialState path storeOpt) [] := by
        unfold destroy
        rw [if_neg (by simp [hd])]
      rw [hdes, if_neg (by simp [hd])]
      refine ⟨hd, ?_, ?_⟩
      · rcases hcarry.2.2 hd with h0 | h1
        · simp [initialState] at h0
        · exact h1
      · intro hready
        have := hcarry.2.1 hready
        simp [initialState] at this
    · simp only [Bool.not_eq_true] at hd
      have hds := destroy_spec _ hd
      rw [if_neg (by simp [hds.1])]
      refine ⟨hds.1, ?_, ?_⟩
      · rw [hds.2.2]
        exact List.mem_append_right _ (by simp)
      · intro hready
        rw [hds.2.2] at hready
        rcases List.mem_append.mp hready with h | h
        · have := hcarry.2.1 h
          simp [initialState] at this
        · simp at h
  · intro e hsome hlive
    have hhas : hasLoc (updateLocation env fuel (initialState path storeOpt) []) []
        = true := by
      simp [hasLoc, hsome, hlive]
    simp only [prepareCache]
    rw [hhas]
    simp only [not_true_eq_false, if_false]
    rw [if_pos (by simp [hlive])]
    refine ⟨rfl, ?_, hsome⟩
    exact List.mem_append_right _ (by simp)

/-- Witness for claim C6 on a file system where the root path does not
resolve: the fresh engine self-destroys, records the destroy notification
and never emits readiness. -/
theorem claim_C6_witness :
    (prepareCache emptyEnv 2 (initialState "/tmp/root" false)).destroyed = true
    ∧ Event.destroyEv
        ∈ (prepareCache emptyEnv 2 (initialState "/tmp/root" false)).events
    ∧ Event.readyEv
        ∉ (prepareCache emptyEnv 2 (initialState "/tmp/root" false)).events :=
  (claim_C6_construction_outcome emptyEnv 2 "/tmp/root" false).1 (by decide)

/-! ## Directory removal (claim C4)

Association-list facts used to reason about `unlinkElement`. -/

theorem mdelete_sublist {α : Type} (m : List (Loc × α)) (k : Loc) :
    List.Sublist (mdelete m k) m := by
  induction m with
  | nil => simp [mdelete]
  | cons p rest ih =>
    rcases p with ⟨k', v'⟩
    by_cases h : k' = k
    · simp only [mdelete, if_pos h]
      exact List.sublist_cons_self _ _
    · simp only [mdelete, if_neg h]
      exact List.Sublist.cons₂ _ ih

theorem mget_some_mem {α : Type} (m : List (Loc × α)) (k : Loc) (v : α)
    (h : mget m k = some v) : (k, v) ∈ m := by
  induction m with
  | nil => simp [mget] at h
  | cons p rest ih =>
    rcases p with ⟨k', v'⟩
    by_cases hk : k' = k
    · simp only [mget, if_pos hk] at h
      cases h
      rw [hk]
      exact List.mem_cons_self _ _
    · simp only [mget, if_neg hk] at h
      exact List.mem_cons_of_mem _ (ih h)

theorem mget_isSome_iff_mem_keys {α : Type} (m : List (Loc × α)) (k : Loc) :
    (mget m k).isSome = true ↔ k ∈ m.map Prod.fst := by
  induction m with
  | nil =>
    constructor
    · intro h; simp [mget] at h
    · intro h; simp at h
  | cons p rest ih =>
    rcases p with ⟨k', v'⟩
    by_cases hk : k' = k
    · constructor
      · intro _
        rw [List.map_cons, hk]
        exact List.mem_cons_self _ _
      · intro _
        simp only [mget]
        rw [if_pos hk]
        rfl
    · simp only [mget, if_neg hk, List.map_cons, List.mem_cons, ih]
      constructor
      · intro h; exact Or.inr h
      · rintro (h | h)
        · exact absurd h.symm hk
        · exact h

theorem mem_mget_nodup {α : Type} (m : List (Loc × α)) (k : Loc) (v : α)
    (hmem : (k, v) ∈ m) (hnd : (m.map Prod.fst).Nodup) : mget m k = some v := by
  induction m with
  | nil => simp at hmem
  | cons p rest ih =>
    rcases p with ⟨k', v'⟩
    rcases List.mem_cons.mp hmem with h | h
    · cases h
      simp [mget]
    · have hk : k' ≠ k := by
        intro hkk
        have hkr : k ∈ rest.map Prod.fst :=
          List.mem_map.mpr ⟨(k, v), h, rfl⟩
        rw [hkk] at hnd
        exact (List.nodup_cons.mp hnd).1 hkr
      simp only [mget, if_neg hk]
      exact ih h (List.nodup_cons.mp hnd).2

theorem mget_sublist_some {α : Type} {m' m : List (Loc × α)}
    (hsub : List.Sublist m' m) (hnd : (m.map Prod.fst).Nodup) (k : Loc) (v : α)
    (h : mget m' k = some v) : mget m k = some v :=
  mem_mget_nodup m k v (hsub.subset (mget_some_mem m' k v h)) hnd

theorem mget_none_of_sublist {α : Type} {m' m : List (Loc × α)}
    (hsub : List.Sublist m' m) (k : Loc) (h : mget m k = none) :
    mget m' k = none := by
  cases ho : mget m' k with
  | none => rfl
  | some v =>
    have hmem := (hsub.map Prod.fst).subset
      ((mget_isSome_iff_mem_keys m' k).mp (by rw [ho]; rfl))
    rw [← mget_isSome_iff_mem_keys m k] at hmem
    rw [h] at hmem
    simp at hmem

theorem mget_mdelete_self {α : Type} (m : List (Loc × α)) (k : Loc)
    (hnd : (m.map Prod.fst).Nodup) : mget (mdelete m k) k = none := by
  induction m with
  | nil => simp [mdelete, mget]
  | cons p rest ih =>
    rcases p with ⟨k', v'⟩
    by_cases hk : k' = k
    · simp only [mdelete, if_pos hk]
      cases ho : mget rest k with
      | none => rfl
      | some v =>
        have hkr : k ∈ rest.map Prod.fst :=
          (mget_isSome_iff_mem_keys rest k).mp (by rw [ho]; rfl)
        rw [← hk] at hkr
        exact absurd hkr (List.nodup_cons.mp hnd).1
    · simp only [mdelete, if_neg hk, mget, if_neg hk]
      exact ih (List.nodup_cons.mp hnd).2

theorem mget_mdelete_ne {α : Type} (m : List (Loc × α)) (k k' : Loc)
    (h : k' ≠ k) : mget (mdelete m k) k' = mget m k' := by
  induction m with
  | nil => simp [mdelete]
  | cons p rest ih =>
    rcases p with ⟨k0, v0⟩
    by_cases hk : k0 = k
    · simp only [mdelete, if_pos hk, mget]
      rw [if_neg (by rw [hk]; exact fun hh => h hh.symm)]
    · by_cases hk' : k0 = k'
      · subst hk'
        simp [mdelete, if_neg hk, mget]
      · simp only [mdelete, if_neg hk, mget, if_neg hk']
        exact ih

theorem storeWF_of_sublist {s t : CacheState} (hwf : StoreWF s)
    (hsub : List.Sublist t.container s.container) : StoreWF t := by
  constructor
  · exact (hsub.map Prod.fst).nodup hwf.1
  · intro k e h
    exact hwf.2 k e (mget_sublist_some hsub hwf.1 k e h)

theorem isSome_mono_of_sublist {α : Type} {m' m : List (Loc × α)}
    (hsub : List.Sublist m' m) (k : Loc)
    (h : (mget m' k).isSome = true) : (mget m k).isSome = true :=
  (mget_isSome_iff_mem_keys m k).mpr
    ((hsub.map Prod.fst).subset ((mget_isSome_iff_mem_keys m' k).mp h))

theorem destroy_container_sublist (s : CacheState) :
    List.Sublist (destroy s).container s.container := by
  unfold destroy
  by_cases hd : s.destroyed
  · rw [if_neg (by simp [hd])]
  · rw [if_pos (by simp [hd])]
    exact List.nil_sublist _

theorem unlinkFinish_container_sublist (s : CacheState) (location : Loc)
    (element : Element) :
    List.Sublist (unlinkFinish s location element).container s.container := by
  simp only [unlinkFinish]
  by_cases hr : location = ([] : Loc)
  · rw [if_pos hr]
    exact (destroy_container_sublist _).trans (mdelete_sublist s.container location)
  · rw [if_neg hr]
    exact mdelete_sublist s.container location

theorem foldl_container_sublist {α : Type} (f : CacheState → α → CacheState)
    (h : ∀ st c, List.Sublist (f st c).container st.container) :
    ∀ (l : List α) (st : CacheState),
      List.Sublist (l.foldl f st).container st.container := by
  intro l
  induction l with
  | nil => intro st; exact List.Sublist.refl _
  | cons c cs ih => intro st; exact (ih (f st c)).trans (h st c)

theorem unlinkContent_container_sublist (ul : CacheState → Loc → CacheState)
    (hul : ∀ st l, List.Sublist (ul st l).container st.container)
    (location : Loc) (s : CacheState) (element : Element) :
    List.Sublist (unlinkContent ul location s element).container s.container := by
  rcases element with ⟨content, eloc, epath, estats, etype⟩
  cases etype with
  | file => exact List.Sublist.refl _
  | directory =>
    cases content with
    | dirList children =>
      simp only [unlinkContent]
      cases hw : mget s.watchers location with
      | some handle =>
        exact foldl_container_sublist _ (fun st c => hul st (location ++ [c]))
          children _
      | none =>
        exact foldl_container_sublist _ (fun st c => hul st (location ++ [c]))
          children s
    | fileBytes bytes => exact List.Sublist.refl _
    | nullc => exact List.Sublist.refl _

theorem unlinkElement_container_sublist :
    ∀ (fuel : Nat) (s : CacheState) (location : Loc),
      List.Sublist (unlinkElement fuel s location).container s.container
  | 0, s, _ => List.Sublist.refl _
  | (fuel + 1), s, location => by
    simp only [unlinkElement]
    cases hm : mget s.container location with
    | none => exact List.Sublist.refl _
    | some element =>
      exact (unlinkFinish_container_sublist _ location element).trans
        (unlinkContent_container_sublist _
          (fun st l => unlinkElement_container_sublist fuel st l) location s element)

theorem removal_count_compose (o0 o1 oN : Option Element)
    (h10 : o1.isSome = true → o0.isSome = true)
    (h1N : o1 = none → oN = none) :
    ((if o0.isSome ∧ o1 = none then 1 else 0) : Nat)
      + (if o1.isSome ∧ oN = none then 1 else 0)
    = if o0.isSome ∧ oN = none then 1 else 0 := by
  cases o1 with
  | none =>
    rw [h1N rfl]
    by_cases h0 : o0.isSome = true <;> simp [h0]
  | some v =>
    have h0 := h10 rfl
    cases oN with
    | none => simp [h0]
    | some w => simp [h0]

theorem countP_empty_removed (m : List (Loc × Element)) (k : Loc) :
    (if (mget m k).isSome ∧ mget m k = none then 1 else 0) = 0 := by
  cases hm : mget m k with
  | none => simp
  | some v => simp

theorem unlink_fold_spec (fuel : Nat) (location : Loc)
    (hrec : ∀ st c, StoreWF st →
      UnlinkSpec st (unlinkElement fuel st (location ++ [c])) (location ++ [c])) :
    ∀ (cs : List String) (st0 : CacheState), StoreWF st0 →
      UnlinkFoldSpec st0
        (cs.foldl (fun st c => unlinkElement fuel st (location ++ [c])) st0)
        location cs := by
  intro cs
  induction cs with
  | nil =>
    intro st0 hwf
    refine ⟨List.Sublist.refl _, ?_, rfl, [], by simp, ?_, by simp, by simp⟩
    · intro k h1 h2; exact absurd h2 h1
    · intro k
      rw [List.countP_nil]
      exact (countP_empty_removed st0.container k).symm
  | cons c0 cs ih =>
    intro st0 hwf
    rw [List.foldl_cons]
    have hne : location ++ [c0] ≠ ([] : Loc) := by simp
    have hstep := hrec st0 c0 hwf
    have hwf1 : StoreWF (unlinkElement fuel st0 (location ++ [c0])) :=
      storeWF_of_sublist hwf hstep.1
    have hrest := ih (unlinkElement fuel st0 (location ++ [c0])) hwf1
    obtain ⟨hdes1, δ1, he1, hc1, hs1, hu1⟩ := hstep.2.2 hne
    obtain ⟨δ2, he2, hc2, hs2, hu2⟩ := hrest.2.2.2
    refine ⟨hrest.1.trans hstep.1, ?_, hrest.2.2.1.trans hdes1,
      δ1 ++ δ2, ?_, ?_, ?_, ?_⟩
    · intro k h1 h2
      by_cases hmid : mget (unlinkElement fuel st0 (location ++ [c0])).container k
          = none
      · exact ⟨c0, List.mem_cons_self _ _, hstep.2.1 k h1 hmid⟩
      · obtain ⟨c, hc, hp⟩ := hrest.2.1 k hmid h2
        exact ⟨c, List.mem_cons_of_mem _ hc, hp⟩
    · rw [he2, he1, List.append_assoc]
    · intro k
      rw [List.countP_append, hc1 k, hc2 k]
      exact removal_count_compose _ _ _
        (isSome_mono_of_sublist hstep.1 k)
        (mget_none_of_sublist hrest.1 k)
    · intro e2 hmem
      rcases List.mem_append.mp hmem with h | h
      · exact hs1 e2 h
      · exact mget_sublist_some hstep.1 hwf.1 _ e2 (hs2 e2 h)
    · intro ev hmem
      rcases List.mem_append.mp hmem with h | h
      · exact hu1 ev h
      · exact hu2 ev h

theorem isUnlinkAt_unlinkEv (k : Loc) (e : Element) :
    isUnlinkAt k (Event.unlinkEv e) = (e.location == k) := rfl

theorem unlinkSpec_refl (s : CacheState) (location : Loc) :
    UnlinkSpec s s location := by
  refine ⟨List.Sublist.refl _, ?_, ?_⟩
  · intro k h1 h2; exact absurd h2 h1
  · intro _
    refine ⟨rfl, [], by simp, ?_, by simp, by simp⟩
    intro k
    rw [List.countP_nil]
    exact (countP_empty_removed s.container k).symm

theorem unlinkPartSpec_refl (s : CacheState) (location : Loc) :
    UnlinkPartSpec s s location := by
  refine ⟨List.Sublist.refl _, ?_, rfl, [], by simp, ?_, by simp, by simp⟩
  · intro k h1 h2; exact absurd h2 h1
  · intro k
    rw [List.countP_nil]
    exact (countP_empty_removed s.container k).symm

theorem unlinkContent_spec (fuel : Nat) (location : Loc) (s : CacheState)
    (element : Element) (hwf : StoreWF s)
    (hrec : ∀ st c, StoreWF st →
      UnlinkSpec st (unlinkElement fuel st (location ++ [c])) (location ++ [c])) :
    UnlinkPartSpec s
      (unlinkContent (fun st l => unlinkElement fuel st l) location s element)
      location := by
  rcases element with ⟨content, eloc, epath, estats, etype⟩
  cases etype with
  | file => cases content <;> exact unlinkPartSpec_refl s location
  | directory =>
    cases content with
    | dirList children =>
      simp only [unlinkContent]
      cases hw : mget s.watchers location with
      | some handle =>
        have hf := unlink_fold_spec fuel location hrec children
          { s with closedHandles := s.closedHandles ++ [handle],
                   watchers := mdelete s.watchers location } hwf
        obtain ⟨δ, he, hc, hs, hu⟩ := hf.2.2.2
        exact ⟨hf.1, fun k h1 h2 => (hf.2.1 k h1 h2).imp (fun c hc2 => hc2.2),
          hf.2.2.1, δ, he, hc, hs, hu⟩
      | none =>
        have hf := unlink_fold_spec fuel location hrec children s hwf
        obtain ⟨δ, he, hc, hs, hu⟩ := hf.2.2.2
        exact ⟨hf.1, fun k h1 h2 => (hf.2.1 k h1 h2).imp (fun c hc2 => hc2.2),
          hf.2.2.1, δ, he, hc, hs, hu⟩
    | fileBytes bytes => exact unlinkPartSpec_refl s location
    | nullc => exact unlinkPartSpec_refl s location

theorem unlinkFinish_spec (s B : CacheState) (location : Loc) (element : Element)
    (hwf : StoreWF s)
    (hm : mget s.container location = some element)
    (heloc : element.location = location)
    (hpart : UnlinkPartSpec s B location) :
    UnlinkSpec s (unlinkFinish B location element) location := by
  have hBloc : mget B.container location = some element := by
    cases hBm : mget B.container location with
    | none =>
      obtain ⟨c, hp⟩ := hpart.2.1 location (by rw [hm]; simp) hBm
      have hlen := hp.length_le
      simp at hlen
    | some e2 =>
      have hup := mget_sublist_some hpart.1 hwf.1 location e2 hBm
      rw [hm] at hup
      cases hup
      rfl
  have hwfB : StoreWF B := storeWF_of_sublist hwf hpart.1
  obtain ⟨δB, heB, hcB, hsB, huB⟩ := hpart.2.2.2
  by_cases hr : location = ([] : Loc)
  · refine ⟨?_, ?_, ?_⟩
    · simp only [unlinkFinish]
      rw [if_pos hr]
      exact (destroy_container_sublist _).trans
        ((mdelete_sublist B.container location).trans hpart.1)
    · intro k h1 h2
      rw [hr]
      exact List.nil_prefix
    · intro hl; exact absurd hr hl
  · have hfin : unlinkFinish B location element =
        { B with container := mdelete B.container location, changed := true,
                 events := B.events ++ [Event.unlinkEv element] } := by
      simp only [unlinkFinish]
      rw [if_neg hr]
    rw [hfin]
    refine ⟨?_, ?_, ?_⟩
    · exact (mdelete_sublist B.container location).trans hpart.1
    · intro k h1 h2
      by_cases hk : k = location
      · rw [hk]
      · rw [show ({ B with
            container := mdelete B.container location
            changed := true
            events := B.events ++ [Event.unlinkEv element] } :
            CacheState).container = mdelete B.container location from rfl] at h2
        rw [mget_mdelete_ne B.container location k hk] at h2
        obtain ⟨c, hp⟩ := hpart.2.1 k h1 h2
        exact (List.prefix_append location [c]).trans hp
    · intro hl
      refine ⟨hpart.2.2.1, δB ++ [Event.unlinkEv element], ?_, ?_, ?_, ?_⟩
      · show B.events ++ [Event.unlinkEv element] = s.events ++ (δB ++ [Event.unlinkEv element])
        rw [heB, List.append_assoc]
      · intro k
        show (δB ++ [Event.unlinkEv element]).countP (isUnlinkAt k)
          = if (mget s.container k).isSome ∧ mget (mdelete B.container location) k = none
            then 1 else 0
        rw [List.countP_append]
        by_cases hk : k = location
        · subst hk
          have hc0 : δB.countP (isUnlinkAt k) = 0 := by
            rw [hcB k, hBloc]
            simp
          have hc1 : List.countP (isUnlinkAt k) [Event.unlinkEv element] = 1 := by
            simp [List.countP_cons, isUnlinkAt_unlinkEv, heloc]
          rw [hc0, hc1, Nat.zero_add, mget_mdelete_self B.container k hwfB.1, hm]
          simp
        · have hlk : ¬location = k := fun h => hk h.symm
          have hc1 : List.countP (isUnlinkAt k) [Event.unlinkEv element] = 0 := by
            simp [List.countP_cons, isUnlinkAt_unlinkEv, heloc, hlk]
          rw [hc1, Nat.add_zero, hcB k, mget_mdelete_ne B.container location k hk]
      · intro e2 hmem
        rcases List.mem_append.mp hmem with h | h
        · exact hsB e2 h
        · have he2 : Event.unlinkEv e2 = Event.unlinkEv element :=
            List.mem_singleton.mp h
          cases he2
          rw [heloc, hm]
      · intro ev hmem
        rcases List.mem_append.mp hmem with h | h
        · exact huB ev h
        · exact ⟨element, List.mem_singleton.mp h⟩

theorem unlink_spec :
    ∀ (fuel : Nat) (s : CacheState) (location : Loc),
      StoreWF s → UnlinkSpec s (unlinkElement fuel s location) location
  | 0, s, location => fun _ => unlinkSpec_refl s location
  | (fuel + 1), s, location => fun hwf => by
    simp only [unlinkElement]
    cases hm : mget s.container location with
    | none => exact unlinkSpec_refl s location
    | some element =>
      have heloc : element.location = location := hwf.2 location element hm
      have hpart := unlinkContent_spec fuel location s element hwf
        (fun st c hw => unlink_spec fuel st (location ++ [c]) hw)
      exact unlinkFinish_spec s _ location element hwf hm heloc hpart

theorem destroy_container_cases (t : CacheState) :
    (destroy t).container = [] ∨ (destroy t).container = t.container := by
  unfold destroy
  by_cases hd : t.destroyed
  · right; rw [if_neg (by simp [hd])]
  · left; rw [if_pos (by simp [hd])]

theorem unlinkFinish_mget_self (B : CacheState) (location : Loc)
    (element : Element) (hnd : (B.container.map Prod.fst).Nodup) :
    mget (unlinkFinish B location element).container location = none := by
  simp only [unlinkFinish]
  by_cases hr : location = ([] : Loc)
  · rw [if_pos hr]
    rcases destroy_container_cases
      { B with container := mdelete B.container location, changed := true,
               events := B.events ++ [Event.unlinkEv element] } with h | h
    · rw [h]; rfl
    · rw [h]
      exact mget_mdelete_self B.container location hnd
  · rw [if_neg hr]
    exact mget_mdelete_self B.container location hnd

theorem unlinkFinish_mget_deeper (B : CacheState) (location : Loc)
    (element : Element) (k : Loc) (hk : k ≠ location)
    (habs : mget B.container k = none) :
    mget (unlinkFinish B location element).container k = none := by
  simp only [unlinkFinish]
  by_cases hr : location = ([] : Loc)
  · rw [if_pos hr]
    rcases destroy_container_cases
      { B with container := mdelete B.container location, changed := true,
               events := B.events ++ [Event.unlinkEv element] } with h | h
    · rw [h]; rfl
    · rw [h, mget_mdelete_ne B.container location k hk]
      exact habs
  · rw [if_neg hr]
    rw [mget_mdelete_ne B.container location k hk]
    exact habs

theorem listedFrom_congr (m m' : List (Loc × Element)) :
    ∀ (rest : List String) (p : Loc),
      (∀ k, p <+: k → mget m' k = mget m k) →
      listedFrom m' p rest = listedFrom m p rest := by
  intro rest
  induction rest with
  | nil => intro p _; rfl
  | cons seg rest ih =>
    intro p h
    simp only [listedFrom]
    rw [h p (List.prefix_refl p)]
    cases mget m p with
    | none => rfl
    | some e =>
      rcases e with ⟨content, eloc, epath, estats, etype⟩
      cases etype with
      | file => cases content <;> rfl
      | directory =>
        cases content with
        | dirList children =>
          dsimp only
          rw [ih (p ++ [seg])
            (fun k hp => h k ((List.prefix_append p [seg]).trans hp))]
        | fileBytes bytes => rfl
        | nullc => rfl

theorem unlink_preserves_disjoint (f : Nat) (st : CacheState) (location : Loc)
    (c seg : String) (hwf : StoreWF st) (hne : c ≠ seg) :
    ∀ k, (location ++ [seg]) <+: k →
      mget (unlinkElement f st (location ++ [c])).container k
        = mget st.container k := by
  intro k hp
  have hspec := unlink_spec f st (location ++ [c]) hwf
  cases hafter : mget (unlinkElement f st (location ++ [c])).container k with
  | some v =>
    exact (mget_sublist_some hspec.1 hwf.1 k v hafter).symm
  | none =>
    cases hbefore : mget st.container k with
    | none => rfl
    | some v =>
      have hpre := hspec.2.1 k (by rw [hbefore]; simp) hafter
      have hcs : c = seg := by
        rcases List.prefix_or_prefix_of_prefix hpre hp with h | h
        · have heq := List.IsPrefix.eq_of_length h (by simp)
          have := List.append_cancel_left heq
          simpa using this
        · have heq := List.IsPrefix.eq_of_length h (by simp)
          have := List.append_cancel_left heq
          simpa using this.symm
      exact absurd hcs hne

theorem unlink_fold_listed (f : Nat) (location : Loc) (seg : String)
    (rest' : List String)
    (hrecL : ∀ st, StoreWF st →
      listedFrom st.container (location ++ [seg]) rest' = true →
      mget (unlinkElement f st (location ++ [seg])).container
        ((location ++ [seg]) ++ rest') = none) :
    ∀ (cs : List String) (st0 : CacheState), StoreWF st0 → seg ∈ cs →
      listedFrom st0.container (location ++ [seg]) rest' = true →
      mget ((cs.foldl (fun st c => unlinkElement f st (location ++ [c])) st0)).container
        ((location ++ [seg]) ++ rest') = none := by
  intro cs
  induction cs with
  | nil => intro st0 _ hmem _; simp at hmem
  | cons c0 cs ih =>
    intro st0 hwf0 hmem hlisted
    rw [List.foldl_cons]
    by_cases hc0 : c0 = seg
    · subst hc0
      have hstep := hrecL st0 hwf0 hlisted
      exact mget_none_of_sublist
        (foldl_container_sublist _
          (fun st c => unlinkElement_container_sublist f st (location ++ [c])) cs _)
        _ hstep
    · have hkeep : ∀ k, (location ++ [seg]) <+: k →
          mget (unlinkElement f st0 (location ++ [c0])).container k
            = mget st0.container k :=
        unlink_preserves_disjoint f st0 location c0 seg hwf0 hc0
      have hwf1 : StoreWF (unlinkElement f st0 (location ++ [c0])) :=
        storeWF_of_sublist hwf0 (unlink_spec f st0 (location ++ [c0]) hwf0).1
      have hlisted1 : listedFrom
          (unlinkElement f st0 (location ++ [c0])).container
          (location ++ [seg]) rest' = true := by
        rw [listedFrom_congr st0.container _ rest' (location ++ [seg]) hkeep]
        exact hlisted
      rcases List.mem_cons.mp hmem with h | h
      · exact absurd h.symm hc0
      · exact ih _ hwf1 h hlisted1

theorem unlink_listed :
    ∀ (rest : List String) (fuel : Nat) (s : CacheState) (location : Loc),
      StoreWF s → rest.length + 1 ≤ fuel →
      listedFrom s.container location rest = true →
      mget (unlinkElement fuel s location).container (location ++ rest) = none
  | [], fuel, s, location => by
    intro hwf hfuel _
    rw [List.append_nil]
    cases fuel with
    | zero => simp at hfuel
    | succ f =>
      simp only [unlinkElement]
      cases hm : mget s.container location with
      | none => exact hm
      | some element =>
        have hpart := unlinkContent_spec f location s element hwf
          (fun st c hw => unlink_spec f st (location ++ [c]) hw)
        exact unlinkFinish_mget_self _ location element
          (storeWF_of_sublist hwf hpart.1).1
  | (seg :: rest'), fuel, s, location => by
    intro hwf hfuel hlisted
    cases fuel with
    | zero => simp at hfuel
    | succ f =>
      have hf : rest'.length + 1 ≤ f := by
        simp only [List.length_cons] at hfuel
        omega
      simp only [listedFrom] at hlisted
      cases hm : mget s.container location with
      | none => rw [hm] at hlisted; simp at hlisted
      | some element =>
        rw [hm] at hlisted
        rcases element with ⟨content, eloc, epath, estats, etype⟩
        cases etype with
        | file => cases content <;> simp at hlisted
        | directory =>
          cases content with
          | fileBytes bytes => simp at hlisted
          | nullc => simp at hlisted
          | dirList children =>
            dsimp only at hlisted
            simp only [Bool.and_eq_true] at hlisted
            have hmem : seg ∈ children := by
              have hcont := hlisted.1
              simpa using hcont
            have hl2 : listedFrom s.container (location ++ [seg]) rest' = true :=
              hlisted.2
            simp only [unlinkElement]
            rw [hm]
            dsimp only
            have hk : location ++ seg :: rest' = (location ++ [seg]) ++ rest' := by
              rw [List.append_cons]
            rw [hk]
            have hBnone : mget
                (unlinkContent (fun st l => unlinkElement f st l) location s
                  { content := Content.dirList children, location := eloc,
                    path := epath, stats := estats,
                    type := ElementType.directory }).container
                ((location ++ [seg]) ++ rest') = none := by
              simp only [unlinkContent]
              cases hw : mget s.watchers location with
              | some handle =>
                exact unlink_fold_listed f location seg rest'
                  (fun st hw2 hl3 =>
                    unlink_listed rest' f st (location ++ [seg]) hw2 hf hl3)
                  children _ hwf hmem hl2
              | none =>
                exact unlink_fold_listed f location seg rest'
                  (fun st hw2 hl3 =>
                    unlink_listed rest' f st (location ++ [seg]) hw2 hf hl3)
                  children s hwf hmem hl2
            have hkne : (location ++ [seg]) ++ rest' ≠ location := by
              intro h
              have hlen := congrArg List.length h
              simp at hlen
            exact unlinkFinish_mget_deeper _ location _ _ hkne hBnone

theorem unlinkFinish_root_destroys (B : CacheState) (location : Loc)
    (element : Element) (hr : location = []) (hd : B.destroyed = false) :
    (unlinkFinish B location element).destroyed = true
    ∧ (unlinkFinish B location element).container = []
    ∧ Event.destroyEv ∈ (unlinkFinish B location element).events := by
  simp only [unlinkFinish]
  rw [if_pos hr]
  have hds := destroy_spec
    { B with
      container := mdelete B.container location
      changed := true
      events := B.events ++ [Event.unlinkEv element] } hd
  exact ⟨hds.1, hds.2.1,
    by rw [hds.2.2]; exact List.mem_append_right _ (by simp)⟩

/-- Claim C4: for a store with well-formed keys, unlinking a location is a
no-op when no element is cached there; otherwise it only ever deletes
entries (surviving entries keep their stored snapshot), every deleted key
lies in the subtree of the unlinked location, exactly one unlink
notification is emitted per deleted key and it carries the element snapshot
that was stored there, the unlink notifications of the children precede the
element's own (which is emitted last), the element itself is deleted, every
cached descendant listed transitively in stored directory content is
deleted, and unlinking the root sentinel destroys the whole engine, leaving
an empty store and a destroy notification. -/
theorem claim_C4_unlink_removal (fuel : Nat) (s : CacheState) (location : Loc)
    (hwf : StoreWF s) :
    (mget s.container location = none → unlinkElement fuel s location = s)
    ∧ (∀ k e, mget (unlinkElement fuel s location).container k = some e →
        mget s.container k = some e)
    ∧ (∀ k, mget s.container k ≠ none →
        mget (unlinkElement fuel s location).container k = none → location <+: k)
    ∧ (location ≠ [] → ∃ δ, (unlinkElement fuel s location).events = s.events ++ δ
        ∧ (∀ k, δ.countP (isUnlinkAt k)
            = if (mget s.container k).isSome
                ∧ mget (unlinkElement fuel s location).container k = none
              then 1 else 0)
        ∧ (∀ e2, Event.unlinkEv e2 ∈ δ → mget s.container e2.location = some e2))
    ∧ (location ≠ [] → 1 ≤ fuel → ∀ element,
        mget s.container location = some element →
        ∃ δc, (unlinkElement fuel s location).events
            = s.events ++ δc ++ [Event.unlinkEv element]
          ∧ ∀ ev ∈ δc, ∃ e2, ev = Event.unlinkEv e2
              ∧ e2.location ≠ location ∧ location <+: e2.location)
    ∧ (1 ≤ fuel → mget s.container location ≠ none →
        mget (unlinkElement fuel s location).container location = none)
    ∧ (∀ rest, rest.length + 1 ≤ fuel →
        listedFrom s.container location rest = true →
        mget (unlinkElement fuel s location).container (location ++ rest) = none)
    ∧ (location = [] → s.destroyed = false →
        mget s.container location ≠ none → 1 ≤ fuel →
        (unlinkElement fuel s location).destroyed = true
        ∧ (unlinkElement fuel s location).container = []
        ∧ Event.destroyEv ∈ (unlinkElement fuel s location).events) := by
  have hspec := unlink_spec fuel s location hwf
  refine ⟨unlinkElement_absent fuel s location,
    fun k e h => mget_sublist_some hspec.1 hwf.1 k e h,
    hspec.2.1, ?_, ?_, ?_,
    fun rest h1 h2 => unlink_listed rest fuel s location hwf h1 h2, ?_⟩
  · intro hl
    obtain ⟨hd, δ, he, hc, hs, hu⟩ := hspec.2.2 hl
    exact ⟨δ, he, hc, hs⟩
  · intro hl hfe element hm
    cases fuel with
    | zero => omega
    | succ f =>
      have heloc : element.location = location := hwf.2 location element hm
      have hpart := unlinkContent_spec f location s element hwf
        (fun st c hw => unlink_spec f st (location ++ [c]) hw)
      obtain ⟨δB, heB, hcB, hsB, huB⟩ := hpart.2.2.2
      refine ⟨δB, ?_, ?_⟩
      · have hev : (unlinkElement (f + 1) s location).events
            = (unlinkContent (fun st l => unlinkElement f st l) location s
                element).events ++ [Event.unlinkEv element] := by
          simp only [unlinkElement]
          rw [hm]
          dsimp only
          simp only [unlinkFinish]
          rw [if_neg hl]
        rw [hev, heB, List.append_assoc]
      · intro ev hmem
        obtain ⟨e2, hev2⟩ := huB ev hmem
        have hsnap := hsB e2 (hev2 ▸ hmem)
        have hcount : 0 < δB.countP (isUnlinkAt e2.location) := by
          refine List.countP_pos_iff.mpr ⟨ev, hmem, ?_⟩
          rw [hev2, isUnlinkAt_unlinkEv]
          simp
        have hremoved : mget (unlinkContent (fun st l => unlinkElement f st l)
            location s element).container e2.location = none := by
          by_cases hrem : mget (unlinkContent (fun st l => unlinkElement f st l)
              location s element).container e2.location = none
          · exact hrem
          · rw [hcB e2.location, if_neg (fun hcond => hrem hcond.2)] at hcount
            omega
        obtain ⟨c, hp⟩ := hpart.2.1 e2.location (by rw [hsnap]; simp) hremoved
        refine ⟨e2, hev2, ?_, (List.prefix_append location [c]).trans hp⟩
        intro heq
        have hlen := hp.length_le
        rw [heq] at hlen
        simp at hlen
  · intro hfe hpres
    cases fuel with
    | zero => omega
    | succ f =>
      simp only [unlinkElement]
      cases hm : mget s.container location with
      | none => exact hm
      | some element =>
        dsimp only
        have hpart := unlinkContent_spec f location s element hwf
          (fun st c hw => unlink_spec f st (location ++ [c]) hw)
        exact unlinkFinish_mget_self _ location element
          (storeWF_of_sublist hwf hpart.1).1
  · intro hr hd hpres hfe
    subst hr
    cases fuel with
    | zero => omega
    | succ f =>
      simp only [unlinkElement]
      cases hm : mget s.container ([] : Loc) with
      | none => exact absurd hm hpres
      | some element =>
        dsimp only
        have hpart := unlinkContent_spec f ([] : Loc) s element hwf
          (fun st c hw => unlink_spec f st ([] ++ [c]) hw)
        exact unlinkFinish_root_destroys _ ([] : Loc) element rfl
          (hpart.2.2.1.trans hd)

/-- Witness for claim C4: unlinking the cached directory `<root>/a` (which
lists the cached child `<root>/a/b`) deletes both the directory and its
listed descendant from the store. -/
theorem claim_C4_witness :
    mget (unlinkElement 3 c4State ["a"]).container ["a"] = none
    ∧ mget (unlinkElement 3 c4State ["a"]).container (["a"] ++ ["b"]) = none := by
  have hwf : StoreWF c4State := by
    refine ⟨by decide, ?_⟩
    intro k e h
    by_cases h1 : (["a"] : Loc) = k
    · rw [← h1] at h ⊢
      rw [show mget c4State.container ["a"] = some c4Dir from by decide] at h
      cases h
      decide
    · by_cases h2 : (["a", "b"] : Loc) = k
      · rw [← h2] at h ⊢
        rw [show mget c4State.container ["a", "b"] = some c4File from by decide]
          at h
        cases h
        decide
      · have hn : mget c4State.container k = none := by
          show mget [((["a"] : Loc), c4Dir), (["a", "b"], c4File)] k = none
          simp only [mget]
          rw [if_neg h1, if_neg h2]
        rw [hn] at h
        cases h
  have happ := claim_C4_unlink_removal 3 c4State ["a"] hwf
  exact ⟨happ.2.2.2.2.2.1 (by decide) (by decide),
    happ.2.2.2.2.2.2.1 ["b"] (by decide) (by decide)⟩

/-- Claim C1, evaluated on the event-loop model: with two triggers parked
while pass 0 is in flight, the `release` emitted at pass 0's completion
re-checks the gate for both waiters before either admitted continuation
has set `_updating` again, so the following microtask drain admits both
parked triggers: passes 1 and 2 end up in flight simultaneously (trigger 2
is admitted although pass 1 has not completed), contradicting the claim
that a pass runs the reconciler to completion before any other queued
trigger is admitted. -/
theorem claim_C1_double_admission :
    serScenario.running = [1, 2]
    ∧ serScenario.finished = [0]
    ∧ serScenario.admitted = [0, 1, 2]
    ∧ serScenario.cache.updating = true := by
  decide

end Recache